import Mathlib

/-!
Verification of the markdown table engine (tableUtils) of md-table-buddy.

Strings of the source language are modelled as `List Char` (`Str`), so that
all operations (trim, split on a character, join) are plain structural
recursion and every predicate is decidable.
-/

namespace MdTableBuddy

/-- Model of a JS string: a list of UTF-16-ish characters. -/
abbrev Str := List Char

/-- Convert a Lean string literal into the model. -/
def strOf (s : String) : Str := s.toList

/-- Whitespace class used by both `trim` and the `\s` regex class. -/
def isWSChar (c : Char) : Bool := c = ' ' || c = '\t' || c = '\n' || c = '\r'

/-- Drop trailing whitespace (the right half of `String.prototype.trim`). -/
def dropTrailingWS (l : Str) : Str := (l.reverse.dropWhile isWSChar).reverse

/-- Model of `String.prototype.trim`. -/
def trimStr (l : Str) : Str := dropTrailingWS (l.dropWhile isWSChar)

/-- Model of `String.prototype.split(sep)` for a single separator character. -/
def splitCh (sep : Char) : Str → List Str
  | [] => [[]]
  | c :: cs =>
    if c = sep then [] :: splitCh sep cs
    else
      match splitCh sep cs with
      | r :: rs => (c :: r) :: rs
      | [] => [[c]]

/-- Model of `Array.prototype.join(sep)` (also used for string concatenation
of cells with pipes). -/
def joinSep (sep : Str) : List Str → Str
  | [] => []
  | [x] => x
  | x :: y :: rest => x ++ sep ++ joinSep sep (y :: rest)

/-- `p` occurs as a contiguous substring of `l` (JS `String.prototype.includes`). -/
def containsStr (p : Str) : Str → Bool
  | [] => p = []
  | l@(_ :: t) => p = l.take p.length || containsStr p t

/-- JS truthiness fallback `n || d` for numbers (0 is falsy). -/
def jsOrNat (n d : Nat) : Nat := if n = 0 then d else n

/-- JS `String(n)` for a natural number. -/
def natToStr (n : Nat) : Str := Nat.toDigits 10 n

/-- `.map((x, i) => f i x)` with explicit start index. -/
def mapWithIdx (f : Nat → α → β) : List α → Nat → List β
  | [], _ => []
  | x :: xs, i => f i x :: mapWithIdx f xs (i + 1)

/-- `.filter((x, i) => p i x)` with explicit start index. -/
def filterWithIdx (p : Nat → α → Bool) : List α → Nat → List α
  | [], _ => []
  | x :: xs, i => if p i x then x :: filterWithIdx p xs (i + 1) else filterWithIdx p xs (i + 1)

-- ============================================================================
-- Basic lemmas about the string model
-- ============================================================================

theorem splitCh_ne_nil (sep : Char) (l : Str) : splitCh sep l ≠ [] := by
  induction l with
  | nil => simp [splitCh]
  | cons c cs ih =>
    simp only [splitCh]
    split
    · simp
    · cases h : splitCh sep cs with
      | nil => simp
      | cons r rs => simp

theorem mapWithIdx_length (f : Nat → α → β) (l : List α) (i : Nat) :
    (mapWithIdx f l i).length = l.length := by
  induction l generalizing i with
  | nil => rfl
  | cons x xs ih => simp [mapWithIdx, ih]

theorem mapWithIdx_getD (f : Nat → α → β) (l : List α) (i j : Nat) (hj : j < l.length)
    (d : β) (d' : α) :
    (mapWithIdx f l i).getD j d = f (i + j) (l.getD j d') := by
  induction l generalizing i j with
  | nil => simp at hj
  | cons x xs ih =>
    cases j with
    | zero => simp [mapWithIdx]
    | succ j' =>
      simp only [mapWithIdx, List.getD_cons_succ]
      rw [ih (i + 1) j' (by simpa using hj)]
      congr 1
      omega

theorem filterWithIdx_sublist (p : Nat → α → Bool) (l : List α) (i : Nat) :
    ∀ x ∈ filterWithIdx p l i, x ∈ l := by
  induction l generalizing i with
  | nil => simp [filterWithIdx]
  | cons y ys ih =>
    intro x hx
    simp only [filterWithIdx] at hx
    split at hx
    · rcases List.mem_cons.mp hx with h | h
      · simp [h]
      · exact List.mem_cons_of_mem _ (ih (i + 1) x h)
    · exact List.mem_cons_of_mem _ (ih (i + 1) x hx)

-- ============================================================================
-- Data model (interfaces of tableUtils.ts)
-- ============================================================================

/-- Column alignment type (`'left' | 'center' | 'right' | 'none'`). -/
inductive ColumnAlignment where
  | left
  | center
  | right
  | none
deriving DecidableEq, Repr

/-- A parsed markdown table (`MarkdownTable` of the source). Line offsets and
`separatorIndex` are modelled as integers, matching JS numbers (`parseCsv`
stores `-1` when there is no header). -/
structure MarkdownTable where
  startLine : Int
  endLine : Int
  rows : List (List Str)
  separatorIndex : Int
  alignments : List ColumnAlignment
deriving DecidableEq, Repr

/-- Options for compacting tables (`CompactOptions`). -/
structure CompactOptions where
  cellPadding : Bool
  separatorPadding : Bool
  alignSeparatorWithHeader : Bool
  keepSeparatorRatios : Bool
deriving DecidableEq, Repr

/-- Options for formatting tables (`FormatOptions`). -/
structure FormatOptions where
  maxWidth : Nat
  cellPadding : Bool
  separatorPadding : Bool
  preserveAlignment : Bool
  keepSeparatorRatios : Bool
deriving DecidableEq, Repr

/-- Options for adding/updating row numbers (`RowNumberOptions`). -/
structure RowNumberOptions where
  startNumber : Nat
  headerText : Str
  alignment : ColumnAlignment
deriving DecidableEq, Repr

/-- Sort direction. -/
inductive SortDirection where
  | ascending
  | descending
deriving DecidableEq, Repr

/-- Sort type (`'text' | 'numeric' | 'date'`). -/
inductive SortKind where
  | text
  | numeric
  | date
deriving DecidableEq, Repr

/-- Options for sorting tables (`SortOptions`). -/
structure SortOptions where
  columnIndex : Nat
  direction : SortDirection
  sortType : SortKind
  caseSensitive : Bool
  keepHeaderRow : Bool
deriving DecidableEq, Repr

/-- Quoting policy for CSV emit. -/
inductive QuotePolicy where
  | always
  | auto
  | never
deriving DecidableEq, Repr

/-- Options for CSV conversion (`CsvOptions`). The delimiter is a string, as
in the source (it can be the word `auto`). -/
structure CsvOptions where
  delimiter : Str
  hasHeader : Bool
  trimCells : Bool
  quoteStrings : QuotePolicy
  includeHeader : Bool
deriving DecidableEq, Repr

/-- `getDefaultCompactOptions`. -/
def getDefaultCompactOptions : CompactOptions :=
  { cellPadding := true, separatorPadding := true,
    alignSeparatorWithHeader := true, keepSeparatorRatios := false }

/-- `getDefaultFormatOptions`. -/
def getDefaultFormatOptions : FormatOptions :=
  { maxWidth := 0, cellPadding := true, separatorPadding := true,
    preserveAlignment := true, keepSeparatorRatios := false }

/-- `getDefaultRowNumberOptions`. -/
def getDefaultRowNumberOptions : RowNumberOptions :=
  { startNumber := 1, headerText := strOf "#", alignment := .right }

/-- `getDefaultSortOptions`. -/
def getDefaultSortOptions : SortOptions :=
  { columnIndex := 0, direction := .ascending, sortType := .text,
    caseSensitive := false, keepHeaderRow := true }

/-- `getDefaultCsvOptions`. -/
def getDefaultCsvOptions : CsvOptions :=
  { delimiter := strOf ",", hasHeader := true, trimCells := true,
    quoteStrings := .auto, includeHeader := true }

-- ============================================================================
-- Basic table parsing (Line Classifier & Table Locator)
-- ============================================================================

/-- `isTableRow`: the trimmed line starts and ends with `|`. -/
def isTableRow (line : Str) : Bool :=
  (trimStr line).head? = some '|' && (trimStr line).getLast? = some '|'

/-- Strip the optional leading colon of a separator cell. -/
def sepTail (l : Str) : Str := if l.head? = some ':' then l.drop 1 else l

/-- Core of the separator-cell regex, `:?-+:?`, applied to an already-trimmed
cell: optional leading colon, one or more dashes, optional trailing colon. -/
def sepCellCore (l : Str) : Bool :=
  decide ((sepTail l).takeWhile (· = '-') ≠ []) &&
    ((sepTail l).drop ((sepTail l).takeWhile (· = '-')).length = [] ||
     (sepTail l).drop ((sepTail l).takeWhile (· = '-')).length = [':'])

/-- The separator-cell regex `/^\s*:?-+:?\s*$/` of the source. -/
def sepCellMatch (cell : Str) : Bool := sepCellCore (trimStr cell)

/-- `isTableSeparator`: a table row whose every inner cell matches the
separator pattern. -/
def isTableSeparator (line : Str) : Bool :=
  if (trimStr line).head? = some '|' && (trimStr line).getLast? = some '|' then
    (splitCh '|' (((trimStr line).drop 1).dropLast)).all sepCellMatch
  else
    false

/-- `parseTableRow`: strip the outer pipes of the trimmed line, split on `|`,
trim each cell. -/
def parseTableRow (line : Str) : List Str :=
  (splitCh '|' (((trimStr line).drop 1).dropLast)).map trimStr

/-- `getAlignmentFromSeparator`. -/
def getAlignmentFromSeparator (cell : Str) : ColumnAlignment :=
  let t := trimStr cell
  let leftAlign := t.head? = some ':'
  let rightAlign := t.getLast? = some ':'
  if leftAlign && rightAlign then .center
  else if rightAlign then .right
  else if leftAlign then .left
  else .none

/-- `parseAlignments`. -/
def parseAlignments (separatorRow : List Str) : List ColumnAlignment :=
  separatorRow.map getAlignmentFromSeparator

/-- State-passing loop of `findCodeBlockRanges`: `st` is `some (start, delim)`
while inside a fenced block; `total` is the document length, used for an
unclosed fence. -/
def findCodeBlockRangesAux (total : Nat) : List Str → Nat → Option (Nat × Str) → List (Nat × Nat)
  | [], _, st =>
    match st with
    | some (s, _) => [(s, total - 1)]
    | none => []
  | l :: ls, i, none =>
    let t := trimStr l
    if t.take 3 = strOf "```" || t.take 3 = strOf "~~~" then
      findCodeBlockRangesAux total ls (i + 1) (some (i, t.take 3))
    else
      findCodeBlockRangesAux total ls (i + 1) none
  | l :: ls, i, some (s, delim) =>
    let t := trimStr l
    if delim = t.take delim.length && trimStr (t.filter (fun c => c ≠ '`' && c ≠ '~')) = [] then
      (s, i) :: findCodeBlockRangesAux total ls (i + 1) none
    else
      findCodeBlockRangesAux total ls (i + 1) (some (s, delim))

/-- `findCodeBlockRanges` (an unclosed fence extends to the last line). -/
def findCodeBlockRanges (lines : List Str) : List (Nat × Nat) :=
  findCodeBlockRangesAux lines.length lines 0 none

/-- `isLineInCodeBlock`. -/
def isLineInCodeBlock (lineNumber : Nat) (ranges : List (Nat × Nat)) : Bool :=
  ranges.any (fun r => r.1 ≤ lineNumber && lineNumber ≤ r.2)

/-- End index of the maximal run of consecutive table rows starting at `i`
(the inner `while` of `findTables`, including its code-block break). -/
def scanRunEnd (lines : List Str) (ranges : List (Nat × Nat)) (ign : Bool) (i : Nat) : Nat :=
  if h : i < lines.length ∧ isTableRow (lines.getD i []) = true ∧
      ¬(ign = true ∧ isLineInCodeBlock i ranges = true) then
    scanRunEnd lines ranges ign (i + 1)
  else
    i
termination_by lines.length - i
decreasing_by omega

theorem scanRunEnd_ge (lines : List Str) (ranges : List (Nat × Nat)) (ign : Bool) (i : Nat) :
    i ≤ scanRunEnd lines ranges ign i := by
  unfold scanRunEnd
  split
  · have := scanRunEnd_ge lines ranges ign (i + 1)
    omega
  · omega
termination_by lines.length - i
decreasing_by omega

theorem scanRunEnd_le (lines : List Str) (ranges : List (Nat × Nat)) (ign : Bool) (i : Nat)
    (h : i ≤ lines.length) : scanRunEnd lines ranges ign i ≤ lines.length := by
  unfold scanRunEnd
  split
  · next hc => exact scanRunEnd_le lines ranges ign (i + 1) (by omega)
  · exact h
termination_by lines.length - i
decreasing_by omega

theorem scanRunEnd_gt (lines : List Str) (ranges : List (Nat × Nat)) (ign : Bool) (i : Nat)
    (h : i < lines.length ∧ isTableRow (lines.getD i []) = true ∧
      ¬(ign = true ∧ isLineInCodeBlock i ranges = true)) :
    i + 1 ≤ scanRunEnd lines ranges ign i := by
  rw [scanRunEnd, dif_pos h]
  exact scanRunEnd_ge lines ranges ign (i + 1)

/-- The raw lines of the table-row run `[i, j)`. -/
def runLinesAt (lines : List Str) (i j : Nat) : List Str :=
  (List.range' i (j - i)).map (fun k => lines.getD k [])

/-- The `MarkdownTable` value pushed by `findTables` for an accepted run
`[i, j)`: its recorded `separatorIndex` is the accepted offset 1, and the
alignments are parsed from the separator row. -/
def tableAt (lines : List Str) (i j : Nat) : MarkdownTable :=
  { startLine := (i : Int), endLine := (j : Int) - 1,
    rows := (runLinesAt lines i j).map parseTableRow,
    separatorIndex := 1,
    alignments := parseAlignments (((runLinesAt lines i j).map parseTableRow).getD 1 []) }

/-- Acceptance test of a run `[i, j)`: at least two rows and the first
separator line at offset 1 of the run. -/
def runAccepted (lines : List Str) (i j : Nat) : Prop :=
  2 ≤ ((runLinesAt lines i j).map parseTableRow).length ∧
    (runLinesAt lines i j).findIdx? isTableSeparator = some 1

instance (lines : List Str) (i j : Nat) : Decidable (runAccepted lines i j) :=
  inferInstanceAs (Decidable (_ ∧ _))

/-- Main scan loop of `findTables`. At each table-row run `[i, j)` the run is
accepted exactly when it has at least two rows and its first separator line is
at offset 1. -/
def findTablesAux (lines : List Str) (ranges : List (Nat × Nat)) (ign : Bool) (i : Nat) :
    List MarkdownTable :=
  if hi : i < lines.length then
    if ign = true ∧ isLineInCodeBlock i ranges = true then
      findTablesAux lines ranges ign (i + 1)
    else if hrow : isTableRow (lines.getD i []) = true then
      if runAccepted lines i (scanRunEnd lines ranges ign i) then
        tableAt lines i (scanRunEnd lines ranges ign i) ::
          findTablesAux lines ranges ign (scanRunEnd lines ranges ign i)
      else
        findTablesAux lines ranges ign (scanRunEnd lines ranges ign i)
    else
      findTablesAux lines ranges ign (i + 1)
  else
    []
termination_by lines.length - i
decreasing_by
  all_goals first
  | omega
  | · have h1 : i + 1 ≤ scanRunEnd lines ranges ign i := by
        apply scanRunEnd_gt
        exact ⟨hi, by assumption, by assumption⟩
      have h2 : scanRunEnd lines ranges ign i ≤ lines.length :=
        scanRunEnd_le lines ranges ign i (by omega)
      omega

/-- `findTables(lines, ignoreCodeBlocks = false)`. -/
def findTables (lines : List Str) (ign : Bool := false) : List MarkdownTable :=
  findTablesAux lines (if ign then findCodeBlockRanges lines else []) ign 0

-- ============================================================================
-- Text manipulation helpers
-- ============================================================================

/-- `padCell(content, width, alignment)`. -/
def padCell (content : Str) (width : Nat) (alignment : ColumnAlignment) : Str :=
  if width ≤ content.length then
    content
  else
    let padding := width - content.length
    match alignment with
    | .right => List.replicate padding ' ' ++ content
    | .center =>
      let leftPad := padding / 2
      let rightPad := padding - leftPad
      List.replicate leftPad ' ' ++ content ++ List.replicate rightPad ' '
    | _ => content ++ List.replicate padding ' '

-- ============================================================================
-- Compact formatter
-- ============================================================================

/-- Separator construction of `createSeparatorCell`, given the decided
left/right colon flags: dash count is `max(3, width)` minus one per colon,
floored at 1. -/
def sepCoreBuild (leftAlign rightAlign : Bool) (width : Nat) : Str :=
  let dashCount0 := max 3 width
  let dashCount1 := if leftAlign then dashCount0 - 1 else dashCount0
  let dashCount2 := if rightAlign then dashCount1 - 1 else dashCount1
  let dashCount := max 1 dashCount2
  let dashes := List.replicate dashCount '-'
  if leftAlign && rightAlign then ':' :: dashes ++ [':']
  else if leftAlign then ':' :: dashes
  else if rightAlign then dashes ++ [':']
  else List.replicate (max 3 width) '-'

/-- `createSeparatorCell(cell, width, options, alignment?)`. Both option-record
shapes carry `cellPadding`/`separatorPadding`, so the `in`-probing of the
source always finds them; they are passed directly here. -/
def createSeparatorCell (cell : Str) (width : Nat) (cellPadding separatorPadding : Bool)
    (alignment : Option ColumnAlignment) : Str :=
  let t := trimStr cell
  let leftAlign := alignment = some .left || alignment = some .center || t.head? = some ':'
  let rightAlign := alignment = some .right || alignment = some .center || t.getLast? = some ':'
  let separator := sepCoreBuild leftAlign rightAlign width
  if cellPadding && separatorPadding then ' ' :: separator ++ [' '] else separator

/-- Rounding of a rational as JS `Math.round` (half away from zero on the
positive axis: `floor (q + 1/2)`). -/
def jsRound (q : ℚ) : Int := (q + (1 : ℚ) / 2).floor

/-- `calculateProportionalSeparatorWidths(originalSeparators, targetTotalWidth)`. -/
def calculateProportionalSeparatorWidths (originalSeparators : List Str)
    (targetTotalWidth : Nat) : List Nat :=
  let originalLengths := originalSeparators.map (fun cell => (trimStr cell).length)
  let originalTotal : Nat := originalLengths.foldl (· + ·) 0
  if originalTotal = 0 then
    let perColumn := max 3 (targetTotalWidth / originalSeparators.length)
    originalSeparators.map (fun _ => perColumn)
  else
    originalLengths.map (fun len =>
      max 3 (jsRound ((len : ℚ) / (originalTotal : ℚ) * (targetTotalWidth : ℚ))).toNat)

/-- `compactTableRow(cells, isSeparator, options, headerWidths?, alignments?)`. -/
def compactTableRow (cells : List Str) (isSeparator : Bool) (options : CompactOptions)
    (headerWidths : Option (List Nat)) (alignments : Option (List ColumnAlignment)) : Str :=
  if isSeparator then
    let compactedCells := mapWithIdx (fun index cell =>
      let width := match headerWidths with
        | some ws => if options.alignSeparatorWithHeader then jsOrNat (ws.getD index 0) 3 else 3
        | none => 3
      let alignment := alignments.bind (fun al => al.get? index)
      createSeparatorCell cell width options.cellPadding options.separatorPadding alignment)
      cells 0
    '|' :: joinSep ['|'] compactedCells ++ ['|']
  else
    if options.cellPadding then
      '|' :: joinSep ['|'] (cells.map (fun cell => ' ' :: cell ++ [' '])) ++ ['|']
    else
      '|' :: joinSep ['|'] cells ++ ['|']

/-- Header cell widths used by `compactTable` for separator alignment. -/
def headerWidthsOf (table : MarkdownTable) : List Nat :=
  (table.rows.getD 0 []).map List.length

/-- The `separatorWidths` option of `compactTable` (proportional widths when
`keepSeparatorRatios` is enabled). -/
def compactSepWidths (table : MarkdownTable) (options : CompactOptions) : Option (List Nat) :=
  if options.keepSeparatorRatios ∧ 0 ≤ table.separatorIndex then
    some (calculateProportionalSeparatorWidths
      (table.rows.getD table.separatorIndex.toNat [])
      (((headerWidthsOf table).map (fun w =>
        if options.alignSeparatorWithHeader then max 3 w else 3)).foldl (· + ·) 0))
  else
    Option.none

/-- Separator row of `compactTable` under proportional widths. -/
def compactPropSepRow (table : MarkdownTable) (options : CompactOptions) (sw : List Nat)
    (row : List Str) : Str :=
  '|' :: joinSep ['|'] (mapWithIdx (fun colIndex cell =>
    createSeparatorCell cell (jsOrNat (sw.getD colIndex 0) 3)
      options.cellPadding options.separatorPadding
      (table.alignments.get? colIndex)) row 0) ++ ['|']

/-- `compactTable(table, options)`. -/
def compactTable (table : MarkdownTable) (options : CompactOptions) : List Str :=
  mapWithIdx (fun index row =>
    if (index : Int) = table.separatorIndex then
      match compactSepWidths table options with
      | some sw => compactPropSepRow table options sw row
      | Option.none =>
        compactTableRow row true options (some (headerWidthsOf table)) (some table.alignments)
    else
      compactTableRow row false options (some (headerWidthsOf table)) (some table.alignments))
    table.rows 0

-- ============================================================================
-- Format table (max-width formatter)
-- ============================================================================

/-- `Math.max(...rows.map(row => row.length))` (over a non-empty list of rows). -/
def fmtColumnCount (rows : List (List Str)) : Nat :=
  (rows.map List.length).foldl max 0

/-- Accumulation loop for one column width: maximum cell length at column `j`
over all non-separator rows, starting from the accumulator. -/
def colWidthStep (sep : Int) (j : Nat) : List (List Str) → Nat → Nat → Nat
  | [], _, acc => acc
  | row :: rest, i, acc =>
    colWidthStep sep j rest (i + 1)
      (if (i : Int) = sep then acc
       else
         match row.get? j with
         | some cell => max acc cell.length
         | none => acc)

/-- The `columnWidths` array of `formatTable`: initialised to 3, then the
maximum content length over all non-separator rows per column. -/
def fmtColumnWidths (t : MarkdownTable) : List Nat :=
  (List.range (fmtColumnCount t.rows)).map (fun j => colWidthStep t.separatorIndex j t.rows 0 3)

/-- The break-column search loop of `formatTable`: walk columns left to right
accumulating widths; return `(breakColumnIndex, accumulatedBeforeBreak)`.
When no column overflows, the index is the column count and the accumulator
keeps its initial value 1 (unused thereafter, as in the source). -/
def findBreakGo (maxW pad : Nat) : List Nat → Nat → Nat → Nat × Nat
  | [], j, _ => (j, 1)
  | w :: ws, j, acc =>
    let colWidth := jsOrNat w 3
    let cellWidth := colWidth + pad + 1
    if maxW < acc + cellWidth then (j, acc)
    else findBreakGo maxW pad ws (j + 1) (acc + cellWidth)

/-- `(breakColumnIndex, accumulatedBeforeBreak)` of `formatTable`. -/
def fmtBreakInfo (t : MarkdownTable) (o : FormatOptions) : Nat × Nat :=
  if 0 < o.maxWidth then
    findBreakGo o.maxWidth (if o.cellPadding then 2 else 0) (fmtColumnWidths t) 0 1
  else
    (fmtColumnCount t.rows, 1)

/-- Fold computing `breakColumnFittingWidth`: maximum length of the cells in
the break column (over non-separator rows) that fit into `avail`. -/
def fitFold (sep : Int) (breakIdx : Nat) (avail : Int) : List (List Str) → Nat → Nat → Nat
  | [], _, acc => acc
  | row :: rest, i, acc =>
    fitFold sep breakIdx avail rest (i + 1)
      (if (i : Int) = sep then acc
       else
         let cell := row.getD breakIdx []
         if (cell.length : Int) ≤ avail then max acc cell.length else acc)

/-- `breakColumnFittingWidth` of `formatTable` (minimum 3). The available
width is computed in ℤ, since the JS subtraction may go negative. -/
def fmtBreakFit (t : MarkdownTable) (o : FormatOptions) : Nat :=
  let count := fmtColumnCount t.rows
  let info := fmtBreakInfo t o
  let pad : Nat := if o.cellPadding then 2 else 0
  if info.1 < count ∧ 0 < o.maxWidth then
    let availableWidth : Int := (o.maxWidth : Int) - (info.2 : Int) - (pad : Int) - 1
    fitFold t.separatorIndex info.1 availableWidth t.rows 0 3
  else 3

/-- `options.preserveAlignment ? table.alignments : []`. -/
def fmtAlignments (t : MarkdownTable) (o : FormatOptions) : List ColumnAlignment :=
  if o.preserveAlignment then t.alignments else []

/-- Dash base of `formatCompactSeparatorCell`: matched to the header width
when `alignSeparatorWithHeader` is enabled, else the literal `---`. -/
def compactSepBase (compactOptions : CompactOptions) (headerWidth : Nat) : Str :=
  if compactOptions.alignSeparatorWithHeader then List.replicate (max 3 headerWidth) '-'
  else ['-', '-', '-']

/-- `formatCompactSeparatorCell(cell, alignment, compactOptions, headerWidth)`
(the `cell` argument is unused in the source as well). -/
def formatCompactSeparatorCell (_cell : Str) (alignment : ColumnAlignment)
    (compactOptions : CompactOptions) (headerWidth : Nat) : Str :=
  let marked :=
    match alignment with
    | .left => ':' :: (compactSepBase compactOptions headerWidth).drop 1
    | .right => (compactSepBase compactOptions headerWidth).dropLast ++ [':']
    | .center =>
      ':' :: (((compactSepBase compactOptions headerWidth).drop 1).dropLast) ++ [':']
    | .none => compactSepBase compactOptions headerWidth
  if compactOptions.separatorPadding && compactOptions.cellPadding then ' ' :: marked ++ [' ']
  else marked

/-- `options.cellPadding ? ' ' + s + ' ' : s` — the padding wrapper appearing
in every cell branch of `formatTable`. -/
def wrapPad (b : Bool) (s : Str) : Str := if b then ' ' :: s ++ [' '] else s

/-- `formatRowWithMaxWidth(row, columnWidths, alignments, options,
compactOptions, breakColumnIndex, breakColumnFittingWidth)`. -/
def formatRowWithMaxWidth (row : List Str) (columnWidths : List Nat)
    (alignments : List ColumnAlignment) (options : FormatOptions)
    (compactOptions : CompactOptions) (breakColumnIndex breakColumnFittingWidth : Nat) : Str :=
  let formattedCells := mapWithIdx (fun colIndex cell =>
    let colWidth := jsOrNat (columnWidths.getD colIndex 0) cell.length
    let alignment := alignments.getD colIndex .left
    if colIndex < breakColumnIndex then
      wrapPad options.cellPadding (padCell cell colWidth alignment)
    else if colIndex = breakColumnIndex then
      if cell.length ≤ breakColumnFittingWidth then
        wrapPad options.cellPadding (padCell cell breakColumnFittingWidth alignment)
      else
        wrapPad compactOptions.cellPadding cell
    else
      wrapPad compactOptions.cellPadding cell) row 0
  '|' :: joinSep ['|'] formattedCells ++ ['|']

/-- The proportional separator widths of `formatTable` when
`keepSeparatorRatios` is enabled (target total = sum of the column widths). -/
def fmtPropWidths (t : MarkdownTable) (o : FormatOptions) : Option (List Nat) :=
  if o.keepSeparatorRatios ∧ 0 ≤ t.separatorIndex then
    some (calculateProportionalSeparatorWidths
      (t.rows.getD t.separatorIndex.toNat [])
      ((fmtColumnWidths t).foldl (· + ·) 0))
  else Option.none

/-- Separator cells of `formatTable` under proportional widths. -/
def fmtSepCellsProp (t : MarkdownTable) (o : FormatOptions) (pw : List Nat)
    (row : List Str) : List Str :=
  mapWithIdx (fun colIndex cell =>
    createSeparatorCell cell (jsOrNat (pw.getD colIndex 0) 3)
      o.cellPadding o.separatorPadding
      (some ((fmtAlignments t o).getD colIndex .none))) row 0

/-- Standard separator cells of `formatTable` (break-column policy; the
header row is `table.rows[0] || []`). -/
def fmtSepCells (t : MarkdownTable) (o : FormatOptions) (co : CompactOptions)
    (row : List Str) : List Str :=
  mapWithIdx (fun colIndex cell =>
    if colIndex < (fmtBreakInfo t o).1 then
      createSeparatorCell cell (jsOrNat ((fmtColumnWidths t).getD colIndex 0) 3)
        o.cellPadding o.separatorPadding (some ((fmtAlignments t o).getD colIndex .none))
    else if colIndex = (fmtBreakInfo t o).1 then
      if ((t.rows.getD 0 []).getD colIndex []).length ≤ fmtBreakFit t o then
        createSeparatorCell cell (fmtBreakFit t o) o.cellPadding
          o.separatorPadding (some ((fmtAlignments t o).getD colIndex .none))
      else
        formatCompactSeparatorCell cell ((fmtAlignments t o).getD colIndex .none) co
          (jsOrNat ((t.rows.getD 0 []).getD colIndex []).length 3)
    else
      formatCompactSeparatorCell cell ((fmtAlignments t o).getD colIndex .none) co
        (jsOrNat ((t.rows.getD 0 []).getD colIndex []).length 3)) row 0

/-- Separator-row rendering of `formatTable`. -/
def fmtSeparatorLine (t : MarkdownTable) (o : FormatOptions) (co : CompactOptions)
    (row : List Str) : Str :=
  match fmtPropWidths t o with
  | some pw => '|' :: joinSep ['|'] (fmtSepCellsProp t o pw row) ++ ['|']
  | Option.none => '|' :: joinSep ['|'] (fmtSepCells t o co row) ++ ['|']

/-- Header-row rendering of `formatTable` when `maxWidth > 0` (same cell
policy as `formatRowWithMaxWidth`). -/
def fmtHeaderMaxLine (t : MarkdownTable) (o : FormatOptions) (co : CompactOptions)
    (row : List Str) : Str :=
  formatRowWithMaxWidth row (fmtColumnWidths t) (fmtAlignments t o) o co
    (fmtBreakInfo t o).1 (fmtBreakFit t o)

/-- Fully-aligned rendering of a row (header without `maxWidth`, and data
rows without `maxWidth`, which share the same cell expression). -/
def fmtStandardLine (t : MarkdownTable) (o : FormatOptions) (row : List Str) : Str :=
  '|' :: joinSep ['|'] (mapWithIdx (fun colIndex cell =>
    wrapPad o.cellPadding (padCell cell
      (jsOrNat ((fmtColumnWidths t).getD colIndex 0) cell.length)
      ((fmtAlignments t o).getD colIndex .left))) row 0) ++ ['|']

/-- `formatTable(table, options, compactOptions)`. The branch structure per
row follows the source: separator row, header with maxWidth, header,
data with maxWidth, then plain aligned data. The source's header-maxWidth
branch is textually identical to `formatRowWithMaxWidth`. -/
def formatTable (table : MarkdownTable) (options : FormatOptions)
    (compactOptions : CompactOptions) : List Str :=
  mapWithIdx (fun rowIndex row =>
    if (rowIndex : Int) = table.separatorIndex then
      fmtSeparatorLine table options compactOptions row
    else if rowIndex = 0 ∧ 0 < options.maxWidth then
      fmtHeaderMaxLine table options compactOptions row
    else if rowIndex = 0 then
      fmtStandardLine table options row
    else if 0 < options.maxWidth then
      formatRowWithMaxWidth row (fmtColumnWidths table) (fmtAlignments table options)
        options compactOptions (fmtBreakInfo table options).1 (fmtBreakFit table options)
    else
      fmtStandardLine table options row) table.rows 0

-- ============================================================================
-- Row numbers
-- ============================================================================

/-- JS `str.toLowerCase()` (modelled per character). -/
def lowerStr (s : Str) : Str := s.map Char.toLower

/-- The `knownHeaders` list of `hasRowNumbers` (the configured header text is
lowercased when added, as in the source). -/
def knownHeaders (headerText : Str) : List Str :=
  [strOf "#", strOf "no", strOf "no.", strOf "nr", strOf "nr.", strOf "num", strOf "row",
   lowerStr headerText]

/-- `/^\d+$/.test(s)`. -/
def isDigitRun (s : Str) : Bool := decide (s ≠ []) && s.all Char.isDigit

/-- `hasRowNumbers(table, headerText = '#')`. -/
def hasRowNumbers (table : MarkdownTable) (headerText : Str) : Bool :=
  match (table.rows.getD 0 []).head? with
  | Option.none => false
  | some c0 =>
    let firstHeader := trimStr (lowerStr c0)
    if ¬ (firstHeader ∈ knownHeaders headerText) then false
    else
      (table.rows.drop 2).all (fun row =>
        match row.head? with
        | Option.none => false
        | some c => isDigitRun (trimStr c))

/-- Alignment marker used by `addRowNumbers` / `insertColumn`
(`'---:' / ':---:' / ':---'`). -/
def alignMarker (a : ColumnAlignment) : Str :=
  match a with
  | .right => strOf "---:"
  | .center => strOf ":---:"
  | _ => strOf ":---"

/-- JS `row[0] = x` on a copied row (an empty array gains an element). -/
def assignHead (row : List Str) (x : Str) : List Str :=
  match row with
  | [] => [x]
  | _ :: rest => x :: rest

/-- Loop of `addRowNumbers`, carrying the running `dataRowIndex`. -/
def addRowNumbersAux (sep : Int) (hasNums : Bool) (ro : RowNumberOptions) :
    List (List Str) → Nat → Nat → List (List Str)
  | [], _, _ => []
  | row :: rest, i, ctr =>
    if i = 0 then
      (if hasNums then assignHead row ro.headerText else ro.headerText :: row) ::
        addRowNumbersAux sep hasNums ro rest (i + 1) ctr
    else if (i : Int) = sep then
      (if hasNums then assignHead row (alignMarker ro.alignment)
       else alignMarker ro.alignment :: row) ::
        addRowNumbersAux sep hasNums ro rest (i + 1) ctr
    else
      (if hasNums then assignHead row (natToStr ctr) else natToStr ctr :: row) ::
        addRowNumbersAux sep hasNums ro rest (i + 1) (ctr + 1)

/-- `addRowNumbers(table, options)`. -/
def addRowNumbers (table : MarkdownTable) (options : RowNumberOptions) : MarkdownTable :=
  let hasNums := hasRowNumbers table options.headerText
  let newRows := addRowNumbersAux table.separatorIndex hasNums options table.rows 0
    options.startNumber
  let newAlignments :=
    if hasNums then options.alignment :: table.alignments.drop 1
    else options.alignment :: table.alignments
  { table with rows := newRows, alignments := newAlignments }

-- ============================================================================
-- Sorting
-- ============================================================================

/-- Characters kept by `val.replace(/[^0-9.-]/g, '')`. -/
def numericChar (c : Char) : Bool := c.isDigit || c = '.' || c = '-'

/-- Digit chain value. -/
def digitsToNat (l : Str) : Nat := l.foldl (fun a c => a * 10 + (c.toNat - '0'.toNat)) 0

/-- Value of a fraction-digit chain, `0.d₁d₂…`. -/
def fracToQ (l : Str) : ℚ := l.foldr (fun c a => (((c.toNat - '0'.toNat : Nat) : ℚ) + a) / 10) 0

/-- Model of JS `parseFloat` restricted to its leading-prefix parse of an
optional minus sign, integer digits, and an optional fraction; `none` models
`NaN`. On strings over the alphabet `[0-9.-]` (all that survives the strip in
the numeric comparator) this is exact, exponents being impossible there. -/
def parseFloatQ (s : Str) : Option ℚ :=
  let negRest : Bool × Str := match s with
    | '-' :: r => (true, r)
    | _ => (false, s)
  let ip := negRest.2.takeWhile Char.isDigit
  let rest2 := negRest.2.drop ip.length
  let fp : Str × Bool := match rest2 with
    | '.' :: r2 => (r2.takeWhile Char.isDigit, true)
    | _ => ([], false)
  if ip = [] ∧ (fp.2 = false ∨ fp.1 = []) then Option.none
  else
    let v : ℚ := (digitsToNat ip : ℚ) + fracToQ fp.1
    some (if negRest.1 then -v else v)

/-- The numeric comparison key of `sortTable`:
`parseFloat(val.replace(/[^0-9.-]/g, '')) || 0`. -/
def numericSortKey (val : Str) : ℚ := (parseFloatQ (val.filter numericChar)).getD 0

/-- The comparator body of `sortTable`. The host-dependent pieces —
`localeCompare` and `new Date(...).getTime()` — are inputs `lc` and `dp`
(`dp v = none` models an invalid date, `NaN`). -/
def sortComparator (lc : Str → Str → Int) (dp : Str → Option Int) (o : SortOptions)
    (a b : List Str) : ℚ :=
  let aVal := a.getD o.columnIndex []
  let bVal := b.getD o.columnIndex []
  let comparison : ℚ :=
    match o.sortType with
    | .numeric => numericSortKey aVal - numericSortKey bVal
    | .date => (((dp aVal).getD 0 : Int) : ℚ) - (((dp bVal).getD 0 : Int) : ℚ)
    | .text =>
      let aText := if o.caseSensitive then aVal else lowerStr aVal
      let bText := if o.caseSensitive then bVal else lowerStr bVal
      ((lc aText bText : Int) : ℚ)
  if o.direction = .descending then -comparison else comparison

/-- Stable insertion for a JS-comparator order: keep `x` before the first
element strictly greater than it. -/
def insertSorted (leq : α → α → Bool) (x : α) : List α → List α
  | [] => [x]
  | y :: ys => if leq x y then x :: y :: ys else y :: insertSorted leq x ys

/-- Model of `Array.prototype.sort(comparator)` for a consistent comparator:
the stable sort it is specified to be. -/
def sortJS (leq : α → α → Bool) (l : List α) : List α :=
  l.foldr (insertSorted leq) []

/-- Row access `table.rows[i]` for an `Int` index. -/
def rowAtI (t : MarkdownTable) (i : Int) : List Str :=
  if 0 ≤ i then t.rows.getD i.toNat [] else []

/-- The data rows of `sortTable`/`transposeTable`:
`rows.filter((_, i) => i !== 0 && i !== separatorIndex)`. -/
def dataRowsOf (t : MarkdownTable) : List (List Str) :=
  filterWithIdx (fun i _ => decide (i ≠ 0) && decide ((i : Int) ≠ t.separatorIndex)) t.rows 0

/-- `sortTable(table, options)`. -/
def sortTable (lc : Str → Str → Int) (dp : Str → Option Int) (table : MarkdownTable)
    (options : SortOptions) : MarkdownTable :=
  let headerRow := table.rows.getD 0 []
  let separatorRow := rowAtI table table.separatorIndex
  let dataRows := dataRowsOf table
  let sortedDataRows := sortJS (fun a b => decide (sortComparator lc dp options a b ≤ 0)) dataRows
  let newRows :=
    if options.keepHeaderRow then headerRow :: separatorRow :: sortedDataRows
    else headerRow :: separatorRow :: sortedDataRows
  { table with rows := newRows }

-- ============================================================================
-- Row and column operations
-- ============================================================================

/-- JS `Array.prototype.splice` start-index clamping. -/
def spliceIdx (len : Nat) (i : Int) : Nat :=
  if i < 0 then ((len : Int) + i).toNat else min i.toNat len

/-- `splice(i, 0, x)`. -/
def spliceInsert (l : List (List Str)) (i : Int) (x : List Str) : List (List Str) :=
  let n := spliceIdx l.length i
  l.take n ++ [x] ++ l.drop n

/-- `splice(i, 1)`. -/
def spliceRemove (l : List (List Str)) (i : Int) : List (List Str) :=
  let n := spliceIdx l.length i
  l.take n ++ l.drop (n + 1)

/-- Destructuring swap `[a[i], a[j]] = [a[j], a[i]]` (both indices in range in
every use reached by the checks of the callers). -/
def swapAt (l : List (List Str)) (i j : Nat) : List (List Str) :=
  (l.set i (l.getD j [])).set j (l.getD i [])

/-- `insertRow(table, rowIndex, cells?)`. Note: unlike the other row
mutators, the source has no header/separator rejection check here, and its
return type is not nullable. -/
def insertRow (table : MarkdownTable) (rowIndex : Int) (cells : Option (List Str)) :
    MarkdownTable :=
  let columnCount := (table.rows.getD 0 []).length
  let newCells0 := cells.getD (List.replicate columnCount [])
  let newCells := newCells0 ++ List.replicate (columnCount - newCells0.length) []
  let newRows := spliceInsert table.rows rowIndex newCells
  let newSeparatorIndex :=
    if rowIndex ≤ table.separatorIndex then table.separatorIndex + 1 else table.separatorIndex
  { table with
    rows := newRows
    separatorIndex := newSeparatorIndex
    endLine := table.endLine + 1 }

/-- `removeRow(table, rowIndex)`. -/
def removeRow (table : MarkdownTable) (rowIndex : Int) : Option MarkdownTable :=
  if rowIndex = 0 ∨ rowIndex = table.separatorIndex then Option.none
  else
    let newRows := spliceRemove table.rows rowIndex
    let newSeparatorIndex :=
      if rowIndex < table.separatorIndex then table.separatorIndex - 1
      else table.separatorIndex
    some { table with
      rows := newRows
      separatorIndex := newSeparatorIndex
      endLine := table.endLine - 1 }

/-- Move direction for rows. -/
inductive RowDirection where
  | up
  | down
deriving DecidableEq, Repr

/-- `moveRow(table, rowIndex, direction)`. -/
def moveRow (table : MarkdownTable) (rowIndex : Int) (direction : RowDirection) :
    Option MarkdownTable :=
  if rowIndex = 0 ∨ rowIndex = table.separatorIndex then Option.none
  else
    let targetIndex := if direction = .up then rowIndex - 1 else rowIndex + 1
    if targetIndex = 0 ∨ targetIndex = table.separatorIndex ∨ targetIndex < 0 ∨
        (table.rows.length : Int) ≤ targetIndex then
      Option.none
    else
      some { table with rows := swapAt table.rows rowIndex.toNat targetIndex.toNat }

/-- `duplicateRow(table, rowIndex)`. -/
def duplicateRow (table : MarkdownTable) (rowIndex : Int) : Option MarkdownTable :=
  if rowIndex = 0 ∨ rowIndex = table.separatorIndex then Option.none
  else some (insertRow table (rowIndex + 1) (some (rowAtI table rowIndex)))

/-- Move direction for columns. -/
inductive ColDirection where
  | left
  | right
deriving DecidableEq, Repr

/-- Per-row cell swap of `moveColumn`. -/
def swapCells (row : List Str) (i j : Nat) : List Str :=
  (row.set i (row.getD j [])).set j (row.getD i [])

/-- Alignment swap of `moveColumn`. -/
def swapAligns (al : List ColumnAlignment) (i j : Nat) : List ColumnAlignment :=
  (al.set i (al.getD j .none)).set j (al.getD i .none)

/-- `moveColumn(table, columnIndex, direction)`. On an out-of-bounds target
the source returns the input table itself, not a null sentinel. -/
def moveColumn (table : MarkdownTable) (columnIndex : Int) (direction : ColDirection) :
    MarkdownTable :=
  let targetIndex := if direction = .left then columnIndex - 1 else columnIndex + 1
  if targetIndex < 0 ∨ ((table.rows.getD 0 []).length : Int) ≤ targetIndex then
    table
  else
    { table with
      rows := table.rows.map (fun row => swapCells row columnIndex.toNat targetIndex.toNat),
      alignments := swapAligns table.alignments columnIndex.toNat targetIndex.toNat }

-- ============================================================================
-- CSV conversion
-- ============================================================================

/-- `text.split(/\r?\n/)`. -/
def splitNL : Str → List Str
  | [] => [[]]
  | '\r' :: '\n' :: rest => [] :: splitNL rest
  | '\n' :: rest => [] :: splitNL rest
  | c :: rest =>
    match splitNL rest with
    | r :: rs => (c :: r) :: rs
    | [] => [[c]]

/-- Scan loop of `parseCsvLine`, carrying the current cell and quote state:
a `"` inside quotes followed by another `"` emits a literal quote and skips
both; otherwise a `"` toggles quote mode; the delimiter splits only outside
quotes. -/
def parseCsvLineAux (delimiter : Str) : Str → Str → Bool → List Str
  | [], cur, _ => [cur]
  | '"' :: '"' :: cs2, cur, true => parseCsvLineAux delimiter cs2 (cur ++ ['"']) true
  | '"' :: cs, cur, true => parseCsvLineAux delimiter cs cur false
  | '"' :: cs, cur, false => parseCsvLineAux delimiter cs cur true
  | c :: cs, cur, inQuotes =>
    if delimiter = [c] ∧ inQuotes = false then
      cur :: parseCsvLineAux delimiter cs [] false
    else
      parseCsvLineAux delimiter cs (cur ++ [c]) inQuotes

/-- `parseCsvLine(line, delimiter)`. -/
def parseCsvLine (line : Str) (delimiter : Str) : List Str :=
  parseCsvLineAux delimiter line [] false

/-- Number of occurrences of a character (`(text.match(/x/g) || []).length`). -/
def countCh (c : Char) (l : Str) : Nat := (l.filter (· = c)).length

/-- `parseCsv(text, options)`. -/
def parseCsv (text : Str) (options : CsvOptions) : MarkdownTable :=
  let delimiter :=
    if options.delimiter = strOf "auto" then
      let commaCount := countCh ',' text
      let semicolonCount := countCh ';' text
      let tabCount := countCh '\t' text
      if commaCount < tabCount ∧ semicolonCount < tabCount then strOf "\t"
      else if commaCount < semicolonCount then strOf ";"
      else strOf ","
    else options.delimiter
  let lines := (splitNL text).filter (fun l => trimStr l ≠ [])
  let rows0 := lines.map (fun l =>
    let cells := parseCsvLine l delimiter
    if options.trimCells then cells.map trimStr else cells)
  let rows :=
    if options.hasHeader ∧ rows0 ≠ [] then
      rows0.take 1 ++ [List.replicate (rows0.headD []).length (strOf "---")] ++ rows0.drop 1
    else rows0
  { startLine := 0, endLine := (rows.length : Int) - 1, rows := rows,
    separatorIndex := if options.hasHeader then 1 else -1,
    alignments := List.replicate (rows.headD []).length .none }

/-- Quoting test of `tableToCsv`'s cell emitter: quote always under `always`,
and under `auto` when the cell contains the delimiter, a newline or a quote. -/
def csvNeedsQuotes (options : CsvOptions) (cell : Str) : Prop :=
  options.quoteStrings = QuotePolicy.always ∨
  (options.quoteStrings = QuotePolicy.auto ∧
    (containsStr options.delimiter cell = true ∨ containsStr [Char.ofNat 10] cell = true ∨
     containsStr ['"'] cell = true))

instance (options : CsvOptions) (cell : Str) : Decidable (csvNeedsQuotes options cell) :=
  inferInstanceAs (Decidable (_ ∨ _))

/-- The `"`-doubling of quoted CSV cell content (`cell.replace(/"/g, '""')`). -/
def csvEscape (cell : Str) : Str :=
  cell.flatMap (fun c => if c = '"' then ['"', '"'] else [c])

/-- Cell emitter of `tableToCsv` (quoting policy and `"`-doubling). -/
def csvEmitCell (options : CsvOptions) (cell : Str) : Str :=
  if csvNeedsQuotes options cell then '"' :: csvEscape cell ++ ['"']
  else cell

/-- `tableToCsv(table, options)`. -/
def tableToCsv (table : MarkdownTable) (options : CsvOptions) : Str :=
  let rowsToInclude :=
    if options.includeHeader then
      filterWithIdx (fun i _ => decide ((i : Int) ≠ table.separatorIndex)) table.rows 0
    else
      filterWithIdx (fun i _ =>
        decide (i ≠ 0) && decide ((i : Int) ≠ table.separatorIndex)) table.rows 0
  joinSep ['\n'] (rowsToInclude.map (fun row =>
    joinSep options.delimiter (row.map (csvEmitCell options))))

-- ============================================================================
-- Lemmas: trim
-- ============================================================================

theorem dropWhileWS_head (l : Str) (c : Char) (h : (l.dropWhile isWSChar).head? = some c) :
    isWSChar c = false := by
  have := List.head?_dropWhile_not isWSChar l
  rw [h] at this
  exact this

theorem dropTrailingWS_reverse (l : Str) :
    (dropTrailingWS l).reverse = l.reverse.dropWhile isWSChar := by
  simp [dropTrailingWS]

theorem dropTrailingWS_getLast (l : Str) (c : Char)
    (h : (dropTrailingWS l).getLast? = some c) : isWSChar c = false := by
  apply dropWhileWS_head l.reverse c
  rw [← dropTrailingWS_reverse, List.head?_reverse]
  exact h

theorem dropTrailingWS_append (l : Str) :
    ∃ t, l = dropTrailingWS l ++ t := by
  refine ⟨(l.reverse.takeWhile isWSChar).reverse, ?_⟩
  rw [dropTrailingWS]
  conv_lhs => rw [← List.reverse_reverse l,
    ← List.takeWhile_append_dropWhile (p := isWSChar) (l := l.reverse)]
  rw [List.reverse_append]

theorem dropTrailingWS_head (l : Str) (c : Char)
    (h : (dropTrailingWS l).head? = some c) : l.head? = some c := by
  obtain ⟨t, ht⟩ := dropTrailingWS_append l
  rw [ht, List.head?_append, h]
  rfl

theorem trimStr_head (l : Str) (c : Char) (h : (trimStr l).head? = some c) :
    isWSChar c = false := by
  apply dropWhileWS_head l c
  exact dropTrailingWS_head _ c h

theorem trimStr_getLast (l : Str) (c : Char) (h : (trimStr l).getLast? = some c) :
    isWSChar c = false :=
  dropTrailingWS_getLast _ c h

theorem dropWhile_eq_self_of_head (p : Char → Bool) (l : Str)
    (h : ∀ c, l.head? = some c → p c = false) : l.dropWhile p = l := by
  cases l with
  | nil => rfl
  | cons x xs =>
    have := h x rfl
    simp [List.dropWhile, this]

theorem trimStr_eq_self (l : Str)
    (h1 : ∀ c, l.head? = some c → isWSChar c = false)
    (h2 : ∀ c, l.getLast? = some c → isWSChar c = false) : trimStr l = l := by
  have e1 : l.dropWhile isWSChar = l := dropWhile_eq_self_of_head _ _ h1
  have e2 : l.reverse.dropWhile isWSChar = l.reverse := by
    apply dropWhile_eq_self_of_head
    intro c hc
    rw [List.head?_reverse] at hc
    exact h2 c hc
  rw [trimStr, e1, dropTrailingWS, e2, List.reverse_reverse]

theorem trimStr_idem (l : Str) : trimStr (trimStr l) = trimStr l :=
  trimStr_eq_self _ (trimStr_head l) (trimStr_getLast l)

theorem trimStr_pipe_bounded (m : Str) : trimStr ('|' :: m ++ ['|']) = '|' :: m ++ ['|'] := by
  apply trimStr_eq_self
  · intro c hc
    have h0 : ('|' :: m ++ ['|']).head? = some '|' := rfl
    rw [h0] at hc
    injection hc with h
    subst h
    rfl
  · intro c hc
    have h0 : ('|' :: m ++ ['|']).getLast? = some '|' := by
      rw [show ('|' :: m ++ ['|']) = ('|' :: m) ++ ['|'] by simp, List.getLast?_append]
      rfl
    rw [h0] at hc
    injection hc with h
    subst h
    rfl

theorem notWS_of_dropWhile_eq_cons (x : Char) (xs : Str)
    (hthis : List.dropWhile isWSChar (x :: xs) = x :: xs) : isWSChar x = false := by
  by_contra hcon
  simp only [Bool.not_eq_false] at hcon
  rw [List.dropWhile_cons, if_pos hcon] at hthis
  have hlen := (List.dropWhile_sublist (l := xs) isWSChar).length_le
  rw [hthis] at hlen
  simp at hlen

theorem trimStr_wrapSp (c : Str) (h : trimStr c = c) : trimStr (' ' :: c ++ [' ']) = c := by
  have hws : isWSChar ' ' = true := rfl
  have step1 : (' ' :: c ++ [' ']).dropWhile isWSChar = (c ++ [' ']).dropWhile isWSChar := by
    rw [show (' ' :: c ++ [' ']) = ' ' :: (c ++ [' ']) from rfl, List.dropWhile_cons, if_pos hws]
  have hdw : c.dropWhile isWSChar = c := by
    apply dropWhile_eq_self_of_head
    intro x hx
    exact trimStr_head c x (by rw [h]; exact hx)
  have hdwr : c.reverse.dropWhile isWSChar = c.reverse := by
    apply dropWhile_eq_self_of_head
    intro x hx
    rw [List.head?_reverse] at hx
    exact trimStr_getLast c x (by rw [h]; exact hx)
  cases hc : c with
  | nil =>
    subst hc
    rw [trimStr, step1]
    rfl
  | cons x xs =>
    subst hc
    have hx : isWSChar x = false := by
      apply notWS_of_dropWhile_eq_cons x xs
      exact hdw
    have h2 : ((x :: xs) ++ [' ']).dropWhile isWSChar = (x :: xs) ++ [' '] := by
      rw [List.cons_append, List.dropWhile_cons, if_neg (by simp [hx])]
    rw [trimStr, step1, h2, dropTrailingWS, List.reverse_append,
      show ([' '] : Str).reverse = [' '] from rfl, List.singleton_append,
      List.dropWhile_cons, if_pos hws, hdwr, List.reverse_reverse]

-- ============================================================================
-- Lemmas: split / join
-- ============================================================================

theorem splitCh_of_notMem (sep : Char) (l : Str) (h : sep ∉ l) : splitCh sep l = [l] := by
  induction l with
  | nil => rfl
  | cons c cs ih =>
    have hc : c ≠ sep := fun he => h (he ▸ List.mem_cons_self c cs)
    have hcs : sep ∉ cs := fun hm => h (List.mem_cons_of_mem c hm)
    rw [splitCh, if_neg hc, ih hcs]

theorem splitCh_append_notMem (sep : Char) (x l : Str) (hx : sep ∉ x) :
    splitCh sep (x ++ l) = (x ++ (splitCh sep l).headD []) :: (splitCh sep l).drop 1 := by
  induction x with
  | nil =>
    simp only [List.nil_append]
    cases h : splitCh sep l with
    | nil => exact absurd h (splitCh_ne_nil sep l)
    | cons r rs => simp
  | cons c cs ih =>
    have hc : c ≠ sep := fun he => hx (he ▸ List.mem_cons_self c cs)
    have hcs : sep ∉ cs := fun hm => hx (List.mem_cons_of_mem c hm)
    rw [List.cons_append, splitCh, if_neg hc, ih hcs]
    simp

theorem splitCh_joinSep (sep : Char) (parts : List Str) (hne : parts ≠ [])
    (hfree : ∀ p ∈ parts, sep ∉ p) :
    splitCh sep (joinSep [sep] parts) = parts := by
  induction parts with
  | nil => exact absurd rfl hne
  | cons x rest ih =>
    cases rest with
    | nil =>
      rw [joinSep]
      exact splitCh_of_notMem sep x (hfree x (List.mem_cons_self x []))
    | cons y rest' =>
      rw [joinSep]
      have hx : sep ∉ x := hfree x (List.mem_cons_self x _)
      have hrest : splitCh sep (joinSep [sep] (y :: rest')) = y :: rest' :=
        ih (by simp) (fun p hp => hfree p (List.mem_cons_of_mem x hp))
      rw [show x ++ [sep] ++ joinSep [sep] (y :: rest') =
        x ++ (sep :: joinSep [sep] (y :: rest')) by simp]
      rw [splitCh_append_notMem sep x _ hx]
      rw [show splitCh sep (sep :: joinSep [sep] (y :: rest')) =
        [] :: splitCh sep (joinSep [sep] (y :: rest')) by rw [splitCh, if_pos rfl]]
      rw [hrest]
      simp

theorem parseTableRow_render (parts : List Str) (hne : parts ≠ [])
    (hfree : ∀ p ∈ parts, '|' ∉ p) :
    parseTableRow ('|' :: joinSep ['|'] parts ++ ['|']) = parts.map trimStr := by
  rw [parseTableRow, trimStr_pipe_bounded]
  rw [show ('|' :: joinSep ['|'] parts ++ ['|']).drop 1 = joinSep ['|'] parts ++ ['|'] by simp]
  rw [List.dropLast_concat]
  rw [splitCh_joinSep '|' parts hne hfree]

-- ============================================================================
-- Lemmas: padding and separator cells
-- ============================================================================

theorem padCell_decomp (c : Str) (w : Nat) (al : ColumnAlignment) :
    ∃ a b : Nat, padCell c w al = List.replicate a ' ' ++ c ++ List.replicate b ' ' := by
  rw [padCell]
  split
  · exact ⟨0, 0, by simp⟩
  · cases al with
    | right => exact ⟨w - c.length, 0, by simp⟩
    | center => exact ⟨(w - c.length) / 2, (w - c.length) - (w - c.length) / 2, by simp⟩
    | left => exact ⟨0, w - c.length, by simp⟩
    | none => exact ⟨0, w - c.length, by simp⟩

theorem padCell_length (c : Str) (w : Nat) (al : ColumnAlignment) :
    (padCell c w al).length = max c.length w := by
  rw [padCell]
  split
  · next h => omega
  · next h =>
    cases al <;> simp <;> omega

theorem takeWhile_dash_rep (d : Nat) (r : Str) :
    (List.replicate d '-' ++ r).takeWhile (· = '-') =
      List.replicate d '-' ++ r.takeWhile (· = '-') := by
  induction d with
  | zero => simp
  | succ n ih => simp [List.replicate_succ, List.takeWhile_cons, ih]

theorem sepTail_colon (rest : Str) : sepTail (':' :: rest) = rest := by
  rw [sepTail, if_pos (show ((':' :: rest) : Str).head? = some ':' from rfl)]
  rfl

theorem sepTail_dash_head (l : Str) (h : l.head? = some '-') : sepTail l = l := by
  rw [sepTail, if_neg]
  rw [h]
  intro hc
  cases hc

theorem sepCellCore_of_parts (l : Str) (d : Nat) (r : Str) (hd : 1 ≤ d)
    (hl : sepTail l = List.replicate d '-' ++ r) (hr : r = [] ∨ r = [':']) :
    sepCellCore l = true := by
  have htw : (sepTail l).takeWhile (· = '-') = List.replicate d '-' := by
    rw [hl, takeWhile_dash_rep]
    rcases hr with h | h <;> subst h <;> simp
  rw [sepCellCore, htw, hl, List.drop_left]
  have hne : List.replicate d '-' ≠ ([] : Str) := by
    intro hcon
    have := congrArg List.length hcon
    simp at this
    omega
  rcases hr with h | h <;> subst h <;> simp [hne]

theorem sepCellCore_colon_dashes_colon (d : Nat) (hd : 1 ≤ d) :
    sepCellCore (':' :: List.replicate d '-' ++ [':']) = true := by
  apply sepCellCore_of_parts _ d [':'] hd _ (Or.inr rfl)
  rw [show ((':' :: List.replicate d '-' ++ [':']) : Str) =
    ':' :: (List.replicate d '-' ++ [':']) from rfl, sepTail_colon]

theorem sepCellCore_colon_dashes (d : Nat) (hd : 1 ≤ d) :
    sepCellCore (':' :: List.replicate d '-') = true := by
  apply sepCellCore_of_parts _ d [] hd _ (Or.inl rfl)
  rw [sepTail_colon]
  simp

theorem sepCellCore_dashes_colon (d : Nat) (hd : 1 ≤ d) :
    sepCellCore (List.replicate d '-' ++ [':']) = true := by
  apply sepCellCore_of_parts _ d [':'] hd _ (Or.inr rfl)
  apply sepTail_dash_head
  cases d with
  | zero => omega
  | succ n => rw [List.replicate_succ]; rfl

theorem sepCellCore_dashes (d : Nat) (hd : 1 ≤ d) :
    sepCellCore (List.replicate d '-') = true := by
  apply sepCellCore_of_parts _ d [] hd _ (Or.inl rfl)
  rw [List.append_nil]
  apply sepTail_dash_head
  cases d with
  | zero => omega
  | succ n => rw [List.replicate_succ]; rfl

theorem sepCoreBuild_spec (la ra : Bool) (w : Nat) :
    sepCellCore (sepCoreBuild la ra w) = true ∧
      (∀ ch ∈ sepCoreBuild la ra w, ch = ':' ∨ ch = '-') ∧
      (3 ≤ w → (sepCoreBuild la ra w).length = w) := by
  rw [sepCoreBuild]
  cases la <;> cases ra <;>
    simp only [Bool.and_self, Bool.and_false, Bool.false_and, Bool.and_true, Bool.true_and,
      if_true, if_false, Bool.false_eq_true, ite_false, ite_true]
  · refine ⟨sepCellCore_dashes (max 3 w) (by omega), ?_, ?_⟩
    · intro ch hch
      right
      exact List.eq_of_mem_replicate hch
    · intro h
      simp
      omega
  · refine ⟨sepCellCore_dashes_colon _ (le_max_left 1 _), ?_, ?_⟩
    · intro ch hch
      rcases List.mem_append.mp hch with h | h
      · right; exact List.eq_of_mem_replicate h
      · left; simpa using h
    · intro h
      simp
      omega
  · refine ⟨sepCellCore_colon_dashes _ (le_max_left 1 _), ?_, ?_⟩
    · intro ch hch
      rcases List.mem_cons.mp hch with h | h
      · left; exact h
      · right; exact List.eq_of_mem_replicate h
    · intro h
      simp
      omega
  · refine ⟨sepCellCore_colon_dashes_colon _ (le_max_left 1 _), ?_, ?_⟩
    · intro ch hch
      rcases List.mem_cons.mp hch with h | h
      · left; exact h
      · rcases List.mem_append.mp h with h2 | h2
        · right; exact List.eq_of_mem_replicate h2
        · left; simpa using h2
    · intro h
      simp
      omega

theorem createSeparatorCell_eq (cell : Str) (w : Nat) (cp sp : Bool)
    (al : Option ColumnAlignment) :
    createSeparatorCell cell w cp sp al =
      wrapPad (cp && sp) (sepCoreBuild
        (al = some ColumnAlignment.left || al = some ColumnAlignment.center ||
          (trimStr cell).head? = some ':')
        (al = some ColumnAlignment.right || al = some ColumnAlignment.center ||
          (trimStr cell).getLast? = some ':') w) := rfl

theorem createSeparatorCell_spec (cell : Str) (w : Nat) (cp sp : Bool)
    (al : Option ColumnAlignment) :
    ∃ core : Str, createSeparatorCell cell w cp sp al = wrapPad (cp && sp) core ∧
      sepCellCore core = true ∧ (∀ ch ∈ core, ch = ':' ∨ ch = '-') ∧
      (3 ≤ w → core.length = w) := by
  rw [createSeparatorCell_eq]
  exact ⟨_, rfl, (sepCoreBuild_spec _ _ w).1, (sepCoreBuild_spec _ _ w).2.1,
    (sepCoreBuild_spec _ _ w).2.2⟩

-- ============================================================================
-- Claim C9: the keep-header-row flag of sortTable has no observable effect
-- ============================================================================

/-- C9: for every table and sort options, `sortTable` with
`keepHeaderRow := true` returns exactly the same table as with
`keepHeaderRow := false`: header and separator rows are excluded from the
sort and re-prepended identically in both branches of the flag. -/
theorem sortTable_keepHeaderRow_no_effect (lc : Str → Str → Int) (dp : Str → Option Int)
    (t : MarkdownTable) (ci : Nat) (dir : SortDirection) (st : SortKind) (cs : Bool) :
    sortTable lc dp t ⟨ci, dir, st, cs, true⟩ = sortTable lc dp t ⟨ci, dir, st, cs, false⟩ := rfl

-- ============================================================================
-- Claim C6: row mutators and the rejection sentinel
-- ============================================================================

/-- Concrete three-row table (header, separator, one data row) used in the
closed C6/C7 statements. -/
def tinyTable : MarkdownTable :=
  { startLine := 0, endLine := 2, rows := [[['a']], [['-', '-', '-']], [['x']]],
    separatorIndex := 1, alignments := [.none] }

/-- C6 counterexample: `insertRow` at the header index 0 does not return any
rejection sentinel — it is not nullable and produces a new table with the row
inserted (the header check exists only in removeRow/moveRow/duplicateRow). -/
theorem insertRow_no_reject_counterexample :
    (insertRow tinyTable 0 Option.none).rows =
        [[[]], [['a']], [['-', '-', '-']], [['x']]] ∧
      (insertRow tinyTable 0 Option.none).separatorIndex = 2 ∧
      (insertRow tinyTable 0 Option.none).endLine = 3 := by
  refine ⟨?_, ?_, ?_⟩ <;> rfl

/-- C6 (amended): at the header row (index 0) or the separator row,
`removeRow`, `moveRow` and `duplicateRow` return the rejection sentinel
`none`; `insertRow` has no such check and always returns a new table with one
more row. -/
theorem rowMutators_reject_header_separator (t : MarkdownTable) (i : Int)
    (h : i = 0 ∨ i = t.separatorIndex) (dir : RowDirection) (cells : Option (List Str)) :
    removeRow t i = Option.none ∧ moveRow t i dir = Option.none ∧
      duplicateRow t i = Option.none ∧
      (insertRow t i cells).rows.length = t.rows.length + 1 := by
  refine ⟨?_, ?_, ?_, ?_⟩
  · rw [removeRow, if_pos h]
  · rw [moveRow, if_pos h]
  · rw [duplicateRow, if_pos h]
  · rw [insertRow]
    simp only [spliceInsert, List.length_append, List.length_take, List.length_drop,
      List.length_cons, List.length_nil]
    omega

/-- C6 witness: the amended statement evaluated at the separator row of the
concrete table. -/
theorem rowMutators_reject_header_separator_witness :
    removeRow tinyTable 1 = Option.none ∧ moveRow tinyTable 1 .down = Option.none ∧
      duplicateRow tinyTable 1 = Option.none ∧
      (insertRow tinyTable 1 (some [['y']])).rows.length = tinyTable.rows.length + 1 :=
  rowMutators_reject_header_separator tinyTable 1 (Or.inr (by decide)) .down (some [['y']])

-- ============================================================================
-- Claim C7: moveColumn with an out-of-bounds target
-- ============================================================================

/-- C7 counterexample: moving column 0 left (target −1, out of bounds) does
not return a sentinel distinguishable from a produced table — it returns the
input table itself. -/
theorem moveColumn_returns_input_counterexample :
    moveColumn tinyTable 0 .left = tinyTable := by decide

/-- C7 (amended): when the move target (`columnIndex − 1` for `left`,
`columnIndex + 1` for `right`) is out of bounds of the header row,
`moveColumn` returns the input table unchanged — there is no distinguishable
rejection sentinel, but the input is indeed left untouched. -/
theorem moveColumn_out_of_bounds_returns_input (t : MarkdownTable) (ci : Int)
    (dir : ColDirection)
    (h : (if dir = ColDirection.left then ci - 1 else ci + 1) < 0 ∨
      ((t.rows.getD 0 []).length : Int) ≤
        (if dir = ColDirection.left then ci - 1 else ci + 1)) :
    moveColumn t ci dir = t := by
  rw [moveColumn, if_pos h]

/-- C7 witness: a right move past the last column of the concrete table
returns the input. -/
theorem moveColumn_out_of_bounds_returns_input_witness :
    moveColumn tinyTable 5 .right = tinyTable :=
  moveColumn_out_of_bounds_returns_input tinyTable 5 .right (by decide)

-- ============================================================================
-- Claim C8: the numeric sort key
-- ============================================================================

/-- Key following the claim's words (for comparison with the code's key): the
numeric value of the first signed/decimal numeric run appearing in the cell,
`0` when no position starts a parseable run. -/
def specFirstNumericRunKey : Str → ℚ
  | [] => 0
  | l@(_ :: rest) =>
    match parseFloatQ l with
    | some q => q
    | Option.none => specFirstNumericRunKey rest

/-- Concrete table for the C8 counterexample: data cells `1a2` and `3`. -/
def numericSortTable : MarkdownTable :=
  { startLine := 0, endLine := 3,
    rows := [[['v']], [['-', '-', '-']], [['1', 'a', '2']], [['3']]],
    separatorIndex := 1, alignments := [.none] }

/-- C8 counterexample: under numeric ascending sort on column 0, the code
strips every non-`[0-9.-]` character first (`1a2 ↦ 12`), so `3` sorts before
`1a2`; the first-numeric-run key of the claim (`1a2 ↦ 1`) orders them the
other way around. -/
theorem sortTable_numeric_firstRun_counterexample :
    (sortTable (fun _ _ => 0) (fun _ => Option.none) numericSortTable
        ⟨0, .ascending, .numeric, false, true⟩).rows =
      [[['v']], [['-', '-', '-']], [['3']], [['1', 'a', '2']]] ∧
    numericSortKey ['1', 'a', '2'] = 12 ∧
    specFirstNumericRunKey ['1', 'a', '2'] = 1 ∧
    specFirstNumericRunKey ['1', 'a', '2'] < specFirstNumericRunKey ['3'] := by
  refine ⟨?_, ?_, ?_, ?_⟩
  · simp [sortTable, numericSortTable, dataRowsOf, filterWithIdx, rowAtI, sortJS, insertSorted,
      sortComparator, numericSortKey, numericChar, parseFloatQ, digitsToNat, fracToQ]
    norm_num
  · simp [numericSortKey, numericChar, parseFloatQ, digitsToNat, fracToQ]
  · simp [specFirstNumericRunKey, parseFloatQ, digitsToNat, fracToQ]
  · simp [specFirstNumericRunKey, parseFloatQ, digitsToNat, fracToQ]

/-- C8 (amended): the numeric comparison key is `parseFloat` of the cell with
every character other than a digit, `.`, `-` deleted (digits of separate runs
are thereby concatenated), `0` when the stripped string does not parse; under
`sortType = numeric` the data rows are stably sorted by exactly this key (in
the chosen direction) and re-assembled after the header and separator rows. -/
theorem sortTable_numeric_sorts_by_strip_key (lc : Str → Str → Int) (dp : Str → Option Int)
    (t : MarkdownTable) (o : SortOptions) (h : o.sortType = SortKind.numeric) :
    (∀ cell, parseFloatQ (cell.filter numericChar) = Option.none → numericSortKey cell = 0) ∧
    (sortTable lc dp t o).rows =
      (t.rows.getD 0 []) :: rowAtI t t.separatorIndex ::
        sortJS (fun a b =>
          match o.direction with
          | .ascending => decide (numericSortKey (a.getD o.columnIndex []) ≤
              numericSortKey (b.getD o.columnIndex []))
          | .descending => decide (numericSortKey (b.getD o.columnIndex []) ≤
              numericSortKey (a.getD o.columnIndex []))) (dataRowsOf t) := by
  constructor
  · intro cell hc
    rw [numericSortKey, hc]
    rfl
  · rw [sortTable]
    have hcmp : (fun a b => decide (sortComparator lc dp o a b ≤ 0)) =
        (fun a b =>
          match o.direction with
          | .ascending => decide (numericSortKey (a.getD o.columnIndex []) ≤
              numericSortKey (b.getD o.columnIndex []))
          | .descending => decide (numericSortKey (b.getD o.columnIndex []) ≤
              numericSortKey (a.getD o.columnIndex []))) := by
      funext a b
      rw [sortComparator, h]
      cases hdir : o.direction with
      | ascending =>
        simp only [hdir]
        simp [sub_nonpos]
      | descending =>
        simp only [hdir]
        simp [sub_nonpos, neg_sub]
    rw [hcmp]
    cases hk : o.keepHeaderRow <;> simp

/-- C8 witness: the amended statement instantiated at the concrete numeric
table with ascending direction (hypothesis discharged by `rfl`). -/
theorem sortTable_numeric_sorts_by_strip_key_witness :
    (∀ cell, parseFloatQ (cell.filter numericChar) = Option.none → numericSortKey cell = 0) ∧
    (sortTable (fun _ _ => 0) (fun _ => Option.none) numericSortTable
        ⟨0, .ascending, .numeric, false, true⟩).rows =
      (numericSortTable.rows.getD 0 []) ::
        rowAtI numericSortTable numericSortTable.separatorIndex ::
        sortJS (fun a b =>
          match ((⟨0, .ascending, .numeric, false, true⟩ : SortOptions)).direction with
          | .ascending => decide (numericSortKey (a.getD 0 []) ≤ numericSortKey (b.getD 0 []))
          | .descending => decide (numericSortKey (b.getD 0 []) ≤ numericSortKey (a.getD 0 [])))
        (dataRowsOf numericSortTable) :=
  sortTable_numeric_sorts_by_strip_key (fun _ _ => 0) (fun _ => Option.none) numericSortTable
    ⟨0, .ascending, .numeric, false, true⟩ rfl

-- ============================================================================
-- Claim C10: header-only tables and row-number detection
-- ============================================================================

/-- C10: on a two-row table (header and separator, `separatorIndex = 1`)
whose first header cell, lowercased then trimmed, is one of the known
row-number headers (or the configured header text, lowercased),
`hasRowNumbers` returns `true` vacuously (no data cells to test for digits),
so `addRowNumbers` overwrites the existing first column — header cell becomes
the configured header text, separator cell the alignment marker — and no new
leading column is inserted (the header row keeps its length). -/
theorem addRowNumbers_headerOnly_overwrites (t : MarkdownTable) (ro : RowNumberOptions)
    (h1 : t.rows.length = 2) (h2 : t.separatorIndex = 1)
    (h3 : t.rows.getD 0 [] ≠ [])
    (h4 : trimStr (lowerStr ((t.rows.getD 0 []).getD 0 [])) ∈ knownHeaders ro.headerText) :
    hasRowNumbers t ro.headerText = true ∧
      (addRowNumbers t ro).rows =
        [assignHead (t.rows.getD 0 []) ro.headerText,
         assignHead (t.rows.getD 1 []) (alignMarker ro.alignment)] ∧
      ((addRowNumbers t ro).rows.getD 0 []).length = (t.rows.getD 0 []).length ∧
      (addRowNumbers t ro).alignments = ro.alignment :: t.alignments.drop 1 := by
  obtain ⟨r0, r1, hrows⟩ := List.length_eq_two.mp h1
  obtain ⟨c0, r0t, hr0⟩ : ∃ c0 r0t, r0 = c0 :: r0t := by
    cases hr0 : r0 with
    | nil =>
      rw [hrows, hr0] at h3
      simp at h3
    | cons a b => exact ⟨a, b, rfl⟩
  have hknown : trimStr (lowerStr c0) ∈ knownHeaders ro.headerText := by
    rw [hrows] at h4
    simp only [List.getD_cons_zero] at h4
    rw [hr0] at h4
    simpa using h4
  have hhead : hasRowNumbers t ro.headerText = true := by
    rw [hasRowNumbers, hrows]
    simp only [List.getD_cons_zero, hr0, List.head?_cons]
    rw [if_neg (by simp [hknown])]
    simp
  refine ⟨hhead, ?_, ?_, ?_⟩
  · rw [addRowNumbers]
    simp only [hhead, if_true]
    rw [hrows, h2]
    simp [addRowNumbersAux]
  · rw [addRowNumbers]
    simp only [hhead, if_true]
    rw [hrows, h2]
    simp only [addRowNumbersAux]
    simp [hr0, assignHead]
  · rw [addRowNumbers]
    simp only [hhead, if_true]

/-- Concrete two-row table whose header cell is `#`. -/
def headerOnlyTable : MarkdownTable :=
  { startLine := 0, endLine := 1, rows := [[['#']], [['-', '-', '-']]],
    separatorIndex := 1, alignments := [.none] }

/-- C10 witness: the statement evaluated on the concrete two-row table with
the default row-number options. -/
theorem addRowNumbers_headerOnly_overwrites_witness :
    hasRowNumbers headerOnlyTable getDefaultRowNumberOptions.headerText = true ∧
      (addRowNumbers headerOnlyTable getDefaultRowNumberOptions).rows =
        [assignHead (headerOnlyTable.rows.getD 0 []) getDefaultRowNumberOptions.headerText,
         assignHead (headerOnlyTable.rows.getD 1 [])
           (alignMarker getDefaultRowNumberOptions.alignment)] ∧
      ((addRowNumbers headerOnlyTable getDefaultRowNumberOptions).rows.getD 0 []).length =
        (headerOnlyTable.rows.getD 0 []).length ∧
      (addRowNumbers headerOnlyTable getDefaultRowNumberOptions).alignments =
        getDefaultRowNumberOptions.alignment :: headerOnlyTable.alignments.drop 1 :=
  addRowNumbers_headerOnly_overwrites headerOnlyTable getDefaultRowNumberOptions
    (by decide) (by decide) (by decide) (by decide)

-- ============================================================================
-- Claim C2: invariants of findTables
-- ============================================================================

theorem runLinesAt_length (lines : List Str) (i j : Nat) :
    (runLinesAt lines i j).length = j - i := by
  simp [runLinesAt]

theorem findTablesAux_props (lines : List Str) (ranges : List (Nat × Nat)) (ign : Bool) :
    ∀ i, (∀ t ∈ findTablesAux lines ranges ign i,
        (i : Int) ≤ t.startLine ∧ t.startLine ≤ t.endLine ∧ 2 ≤ t.rows.length ∧
          t.separatorIndex = 1) ∧
      List.Pairwise (fun a b : MarkdownTable => a.startLine < b.startLine ∧
        a.endLine < b.startLine) (findTablesAux lines ranges ign i) := by
  intro i
  induction i using findTablesAux.induct lines ranges ign with
  | case1 i hi hcb ih =>
    rw [findTablesAux.eq_def, dif_pos hi, if_pos hcb]
    refine ⟨fun t ht => ?_, ih.2⟩
    have h := ih.1 t ht
    exact ⟨by omega, h.2.1, h.2.2⟩
  | case2 i hi hcb hrow hacc ih =>
    rw [findTablesAux.eq_def, dif_pos hi, if_neg hcb, dif_pos hrow, if_pos hacc]
    have hji : i + 1 ≤ scanRunEnd lines ranges ign i :=
      scanRunEnd_gt lines ranges ign i ⟨hi, hrow, hcb⟩
    have hji2 : i + 2 ≤ scanRunEnd lines ranges ign i := by
      have := hacc.1
      rw [List.length_map, runLinesAt_length] at this
      omega
    constructor
    · intro t ht
      rcases List.mem_cons.mp ht with h | h
      · subst h
        refine ⟨by simp [tableAt], by simp [tableAt]; omega, ?_, rfl⟩
        show 2 ≤ (tableAt lines i (scanRunEnd lines ranges ign i)).rows.length
        rw [tableAt]
        simp only [List.length_map, runLinesAt_length]
        omega
      · have h2 := (ih.1 t h)
        refine ⟨?_, h2.2.1, h2.2.2⟩
        have := h2.1
        omega
    · rw [List.pairwise_cons]
      refine ⟨fun t ht => ?_, ih.2⟩
      have h2 := (ih.1 t ht).1
      constructor <;> simp [tableAt] <;> omega
  | case3 i hi hcb hrow hacc ih =>
    rw [findTablesAux.eq_def, dif_pos hi, if_neg hcb, dif_pos hrow, if_neg hacc]
    have hji : i + 1 ≤ scanRunEnd lines ranges ign i :=
      scanRunEnd_gt lines ranges ign i ⟨hi, hrow, hcb⟩
    refine ⟨fun t ht => ?_, ih.2⟩
    have h := ih.1 t ht
    refine ⟨?_, h.2.1, h.2.2⟩
    have := h.1
    omega
  | case4 i hi hcb hrow ih =>
    rw [findTablesAux.eq_def, dif_pos hi, if_neg hcb, dif_neg hrow]
    refine ⟨fun t ht => ?_, ih.2⟩
    have h := ih.1 t ht
    exact ⟨by omega, h.2.1, h.2.2⟩
  | case5 i hi =>
    rw [findTablesAux.eq_def, dif_neg hi]
    simp

theorem findTablesAux_no_pipe (lines : List Str) (ranges : List (Nat × Nat)) (ign : Bool)
    (h : ∀ l ∈ lines, isTableRow l = false) :
    ∀ i, findTablesAux lines ranges ign i = [] := by
  intro i
  induction i using findTablesAux.induct lines ranges ign with
  | case1 i hi hcb ih => rw [findTablesAux.eq_def, dif_pos hi, if_pos hcb]; exact ih
  | case2 i hi hcb hrow hacc ih =>
    exfalso
    have hmem : lines.getD i [] ∈ lines := by
      rw [List.getD_eq_getElem lines [] hi]
      exact List.getElem_mem hi
    rw [h _ hmem] at hrow
    cases hrow
  | case3 i hi hcb hrow hacc ih =>
    exfalso
    have hmem : lines.getD i [] ∈ lines := by
      rw [List.getD_eq_getElem lines [] hi]
      exact List.getElem_mem hi
    rw [h _ hmem] at hrow
    cases hrow
  | case4 i hi hcb hrow ih =>
    rw [findTablesAux.eq_def, dif_pos hi, if_neg hcb, dif_neg hrow]; exact ih
  | case5 i hi => rw [findTablesAux.eq_def, dif_neg hi]

/-- C2: for every input line sequence and ignore-code-blocks flag, every
table returned by `findTables` has at least two rows and `separatorIndex = 1`
and a well-ordered span; the tables are returned in strictly ascending
`startLine` order with pairwise disjoint `[startLine, endLine]` ranges; and
an input with no pipe-delimited rows yields the empty sequence. -/
theorem findTables_spec (lines : List Str) (ign : Bool) :
    (∀ t ∈ findTables lines ign, 2 ≤ t.rows.length ∧ t.separatorIndex = 1 ∧
      t.startLine ≤ t.endLine) ∧
    List.Pairwise (fun a b : MarkdownTable => a.startLine < b.startLine ∧
      a.endLine < b.startLine) (findTables lines ign) ∧
    ((∀ l ∈ lines, isTableRow l = false) → findTables lines ign = []) := by
  have h := findTablesAux_props lines (if ign then findCodeBlockRanges lines else []) ign 0
  refine ⟨fun t ht => ?_, h.2, fun hno => ?_⟩
  · have := h.1 t ht
    exact ⟨this.2.2.1, this.2.2.2, this.2.1⟩
  · exact findTablesAux_no_pipe lines _ ign hno 0

/-- C2 witness: a document with no pipe rows yields no tables, and the two
other conjuncts instantiated there. -/
theorem findTables_spec_witness :
    findTables [strOf "hello", strOf "world"] false = [] :=
  (findTables_spec [strOf "hello", strOf "world"] false).2.2 (by decide)

-- ============================================================================
-- Claim C1: formatTable never truncates cell content
-- ============================================================================

theorem wrapPad_decomp (bflag : Bool) (s cell : Str)
    (h : ∃ a b : Nat, s = List.replicate a ' ' ++ cell ++ List.replicate b ' ') :
    ∃ a b : Nat, wrapPad bflag s = List.replicate a ' ' ++ cell ++ List.replicate b ' ' := by
  obtain ⟨a, b, hab⟩ := h
  cases bflag with
  | false => exact ⟨a, b, by rw [wrapPad, if_neg (by simp), hab]⟩
  | true =>
    refine ⟨a + 1, b + 1, ?_⟩
    rw [wrapPad, if_pos rfl, hab]
    rw [List.replicate_succ, List.replicate_succ' (n := b)]
    simp

theorem wrapPad_padCell_decomp (bflag : Bool) (cell : Str) (w : Nat) (al : ColumnAlignment) :
    ∃ a b : Nat, wrapPad bflag (padCell cell w al) =
      List.replicate a ' ' ++ cell ++ List.replicate b ' ' :=
  wrapPad_decomp bflag _ cell (padCell_decomp cell w al)

theorem wrapPad_self_decomp (bflag : Bool) (cell : Str) :
    ∃ a b : Nat, wrapPad bflag cell = List.replicate a ' ' ++ cell ++ List.replicate b ' ' :=
  wrapPad_decomp bflag cell cell ⟨0, 0, by simp⟩

/-- The cell list rendered by `formatRowWithMaxWidth`. -/
def fmtMaxCells (row : List Str) (columnWidths : List Nat)
    (alignments : List ColumnAlignment) (options : FormatOptions)
    (compactOptions : CompactOptions) (breakColumnIndex breakColumnFittingWidth : Nat) :
    List Str :=
  mapWithIdx (fun colIndex cell =>
    let colWidth := jsOrNat (columnWidths.getD colIndex 0) cell.length
    let alignment := alignments.getD colIndex .left
    if colIndex < breakColumnIndex then
      wrapPad options.cellPadding (padCell cell colWidth alignment)
    else if colIndex = breakColumnIndex then
      if cell.length ≤ breakColumnFittingWidth then
        wrapPad options.cellPadding (padCell cell breakColumnFittingWidth alignment)
      else
        wrapPad compactOptions.cellPadding cell
    else
      wrapPad compactOptions.cellPadding cell) row 0

theorem formatRowWithMaxWidth_eq (row : List Str) (cw : List Nat)
    (al : List ColumnAlignment) (o : FormatOptions) (co : CompactOptions) (bi fit : Nat) :
    formatRowWithMaxWidth row cw al o co bi fit =
      '|' :: joinSep ['|'] (fmtMaxCells row cw al o co bi fit) ++ ['|'] := rfl

theorem fmtMaxCells_decomp (row : List Str) (cw : List Nat) (al : List ColumnAlignment)
    (o : FormatOptions) (co : CompactOptions) (bi fit : Nat) :
    (fmtMaxCells row cw al o co bi fit).length = row.length ∧
    (∀ j, j < row.length → ∃ a b : Nat, (fmtMaxCells row cw al o co bi fit).getD j [] =
      List.replicate a ' ' ++ row.getD j [] ++ List.replicate b ' ') ∧
    (∀ j, j < row.length → j = bi → fit < (row.getD j []).length →
      (fmtMaxCells row cw al o co bi fit).getD j [] = wrapPad co.cellPadding (row.getD j [])) := by
  refine ⟨mapWithIdx_length _ row 0, ?_, ?_⟩
  · intro j hj
    rw [fmtMaxCells, mapWithIdx_getD _ row 0 j hj [] []]
    simp only [Nat.zero_add]
    by_cases h1 : j < bi
    · rw [if_pos h1]
      exact wrapPad_padCell_decomp _ _ _ _
    · rw [if_neg h1]
      by_cases h2 : j = bi
      · rw [if_pos h2]
        by_cases h3 : (row.getD j []).length ≤ fit
        · rw [if_pos h3]
          exact wrapPad_padCell_decomp _ _ _ _
        · rw [if_neg h3]
          exact wrapPad_self_decomp _ _
      · rw [if_neg h2]
        exact wrapPad_self_decomp _ _
  · intro j hj hbi hfit
    rw [fmtMaxCells, mapWithIdx_getD _ row 0 j hj [] []]
    simp only [Nat.zero_add]
    rw [if_neg (by omega), if_pos hbi, if_neg (by omega)]

/-- The cell list rendered by `fmtStandardLine`. -/
def fmtStandardCells (t : MarkdownTable) (o : FormatOptions) (row : List Str) : List Str :=
  mapWithIdx (fun colIndex cell =>
    wrapPad o.cellPadding (padCell cell
      (jsOrNat ((fmtColumnWidths t).getD colIndex 0) cell.length)
      ((fmtAlignments t o).getD colIndex .left))) row 0

theorem fmtStandardLine_eq (t : MarkdownTable) (o : FormatOptions) (row : List Str) :
    fmtStandardLine t o row = '|' :: joinSep ['|'] (fmtStandardCells t o row) ++ ['|'] := rfl

theorem fmtStandardCells_decomp (t : MarkdownTable) (o : FormatOptions) (row : List Str) :
    (fmtStandardCells t o row).length = row.length ∧
    ∀ j, j < row.length → ∃ a b : Nat, (fmtStandardCells t o row).getD j [] =
      List.replicate a ' ' ++ row.getD j [] ++ List.replicate b ' ' := by
  refine ⟨mapWithIdx_length _ row 0, fun j hj => ?_⟩
  rw [fmtStandardCells, mapWithIdx_getD _ row 0 j hj [] []]
  simp only [Nat.zero_add]
  exact wrapPad_padCell_decomp _ _ _ _

/-- C1: for every table, format options and compact options, each line that
`formatTable` renders for a non-separator row is a pipe-delimited sequence of
exactly the row's cells, each cell appearing unchanged and in order with only
space padding around it (cell content is never truncated); moreover when
`maxWidth > 0`, the cell of the break column in a row whose content exceeds
the fitting width is rendered at its natural (compact) width — possibly
pushing that line beyond `maxWidth` — rather than losing data. -/
theorem formatTable_no_truncation (t : MarkdownTable) (o : FormatOptions)
    (co : CompactOptions) (r : Nat) (hr : r < t.rows.length)
    (hsep : (r : Int) ≠ t.separatorIndex) :
    ∃ segs : List Str,
      (formatTable t o co).getD r [] = '|' :: joinSep ['|'] segs ++ ['|'] ∧
      segs.length = (t.rows.getD r []).length ∧
      (∀ j, j < (t.rows.getD r []).length →
        ∃ a b : Nat, segs.getD j [] =
          List.replicate a ' ' ++ (t.rows.getD r []).getD j [] ++ List.replicate b ' ') ∧
      (0 < o.maxWidth → ∀ j, j < (t.rows.getD r []).length →
        j = (fmtBreakInfo t o).1 →
        fmtBreakFit t o < ((t.rows.getD r []).getD j []).length →
        segs.getD j [] = wrapPad co.cellPadding ((t.rows.getD r []).getD j [])) := by
  have hline : (formatTable t o co).getD r [] =
      (if (r : Int) = t.separatorIndex then fmtSeparatorLine t o co (t.rows.getD r [])
       else if r = 0 ∧ 0 < o.maxWidth then fmtHeaderMaxLine t o co (t.rows.getD r [])
       else if r = 0 then fmtStandardLine t o (t.rows.getD r [])
       else if 0 < o.maxWidth then
         formatRowWithMaxWidth (t.rows.getD r []) (fmtColumnWidths t) (fmtAlignments t o)
           o co (fmtBreakInfo t o).1 (fmtBreakFit t o)
       else fmtStandardLine t o (t.rows.getD r [])) := by
    rw [formatTable, mapWithIdx_getD _ t.rows 0 r hr [] []]
    simp only [Nat.zero_add]
  rw [hline, if_neg hsep]
  by_cases hmax : 0 < o.maxWidth
  · have hbranch :
        (if r = 0 ∧ 0 < o.maxWidth then fmtHeaderMaxLine t o co (t.rows.getD r [])
         else if r = 0 then fmtStandardLine t o (t.rows.getD r [])
         else if 0 < o.maxWidth then
           formatRowWithMaxWidth (t.rows.getD r []) (fmtColumnWidths t) (fmtAlignments t o)
             o co (fmtBreakInfo t o).1 (fmtBreakFit t o)
         else fmtStandardLine t o (t.rows.getD r [])) =
        formatRowWithMaxWidth (t.rows.getD r []) (fmtColumnWidths t) (fmtAlignments t o)
          o co (fmtBreakInfo t o).1 (fmtBreakFit t o) := by
      by_cases h0 : r = 0
      · rw [if_pos ⟨h0, hmax⟩]
        rfl
      · rw [if_neg (by simp [h0]), if_neg h0, if_pos hmax]
    rw [hbranch, formatRowWithMaxWidth_eq]
    have hd := fmtMaxCells_decomp (t.rows.getD r []) (fmtColumnWidths t) (fmtAlignments t o)
      o co (fmtBreakInfo t o).1 (fmtBreakFit t o)
    exact ⟨_, rfl, hd.1, hd.2.1, fun _ => hd.2.2⟩
  · have hbranch :
        (if r = 0 ∧ 0 < o.maxWidth then fmtHeaderMaxLine t o co (t.rows.getD r [])
         else if r = 0 then fmtStandardLine t o (t.rows.getD r [])
         else if 0 < o.maxWidth then
           formatRowWithMaxWidth (t.rows.getD r []) (fmtColumnWidths t) (fmtAlignments t o)
             o co (fmtBreakInfo t o).1 (fmtBreakFit t o)
         else fmtStandardLine t o (t.rows.getD r [])) =
        fmtStandardLine t o (t.rows.getD r []) := by
      by_cases h0 : r = 0
      · rw [if_neg (by simp [hmax]), if_pos h0]
      · rw [if_neg (by simp [hmax]), if_neg h0, if_neg hmax]
    rw [hbranch, fmtStandardLine_eq]
    have hd := fmtStandardCells_decomp t o (t.rows.getD r [])
    exact ⟨_, rfl, hd.1, hd.2, fun hc => absurd hc hmax⟩

/-- C1 witness: the decomposition evaluated on a concrete two-column table
with a narrow `maxWidth`, at the data row whose second cell overflows. -/
theorem formatTable_no_truncation_witness :
    ∃ segs : List Str,
      (formatTable
          { startLine := 0, endLine := 2,
            rows := [[['a'], ['b']], [['-', '-', '-'], ['-', '-', '-']],
              [['x'], ['l', 'o', 'n', 'g', 'c', 'e', 'l', 'l', 'v', 'a', 'l', 'u', 'e']]],
            separatorIndex := 1, alignments := [.none, .none] }
          { maxWidth := 9, cellPadding := true, separatorPadding := true,
            preserveAlignment := true, keepSeparatorRatios := false }
          getDefaultCompactOptions).getD 2 [] = '|' :: joinSep ['|'] segs ++ ['|'] ∧
      segs.length = 2 ∧
      (∀ j, j < 2 →
        ∃ a b : Nat, segs.getD j [] =
          List.replicate a ' ' ++
            ([[['a'], ['b']], [['-', '-', '-'], ['-', '-', '-']],
              [['x'], ['l', 'o', 'n', 'g', 'c', 'e', 'l', 'l', 'v', 'a', 'l', 'u', 'e']]].getD
                2 []).getD j [] ++ List.replicate b ' ') ∧
      (0 < (9 : Nat) → ∀ j, j < 2 →
        j = (fmtBreakInfo
          { startLine := 0, endLine := 2,
            rows := [[['a'], ['b']], [['-', '-', '-'], ['-', '-', '-']],
              [['x'], ['l', 'o', 'n', 'g', 'c', 'e', 'l', 'l', 'v', 'a', 'l', 'u', 'e']]],
            separatorIndex := 1, alignments := [.none, .none] }
          { maxWidth := 9, cellPadding := true, separatorPadding := true,
            preserveAlignment := true, keepSeparatorRatios := false }).1 →
        fmtBreakFit
          { startLine := 0, endLine := 2,
            rows := [[['a'], ['b']], [['-', '-', '-'], ['-', '-', '-']],
              [['x'], ['l', 'o', 'n', 'g', 'c', 'e', 'l', 'l', 'v', 'a', 'l', 'u', 'e']]],
            separatorIndex := 1, alignments := [.none, .none] }
          { maxWidth := 9, cellPadding := true, separatorPadding := true,
            preserveAlignment := true, keepSeparatorRatios := false } <
          (([[['a'], ['b']], [['-', '-', '-'], ['-', '-', '-']],
              [['x'], ['l', 'o', 'n', 'g', 'c', 'e', 'l', 'l', 'v', 'a', 'l', 'u', 'e']]].getD
                2 []).getD j []).length →
        segs.getD j [] = wrapPad getDefaultCompactOptions.cellPadding
          (([[['a'], ['b']], [['-', '-', '-'], ['-', '-', '-']],
              [['x'], ['l', 'o', 'n', 'g', 'c', 'e', 'l', 'l', 'v', 'a', 'l', 'u', 'e']]].getD
                2 []).getD j [])) := by
  have h := formatTable_no_truncation
    { startLine := 0, endLine := 2,
      rows := [[['a'], ['b']], [['-', '-', '-'], ['-', '-', '-']],
        [['x'], ['l', 'o', 'n', 'g', 'c', 'e', 'l', 'l', 'v', 'a', 'l', 'u', 'e']]],
      separatorIndex := 1, alignments := [.none, .none] }
    { maxWidth := 9, cellPadding := true, separatorPadding := true,
      preserveAlignment := true, keepSeparatorRatios := false }
    getDefaultCompactOptions 2 (by decide) (by decide)
  exact h

-- ============================================================================
-- Lemmas: column widths and rendered-cell lengths
-- ============================================================================

theorem colWidthStep_mono (sep : Int) (j : Nat) (rows : List (List Str)) :
    ∀ i a b, a ≤ b → colWidthStep sep j rows i a ≤ colWidthStep sep j rows i b := by
  induction rows with
  | nil => intro i a b h; exact h
  | cons row rest ih =>
    intro i a b h
    rw [colWidthStep, colWidthStep]
    apply ih
    by_cases hs : (i : Int) = sep
    · rw [if_pos hs, if_pos hs]; exact h
    · rw [if_neg hs, if_neg hs]
      cases hg : row.get? j with
      | none => exact h
      | some cell => exact max_le_max h le_rfl

theorem colWidthStep_ge_init (sep : Int) (j : Nat) (rows : List (List Str)) :
    ∀ i acc, acc ≤ colWidthStep sep j rows i acc := by
  induction rows with
  | nil => intro i acc; exact le_rfl
  | cons row rest ih =>
    intro i acc
    rw [colWidthStep]
    refine le_trans ?_ (ih (i + 1) _)
    by_cases hs : (i : Int) = sep
    · rw [if_pos hs]
    · rw [if_neg hs]
      cases hg : row.get? j with
      | none => exact le_rfl
      | some cell => exact le_max_left _ _

theorem colWidthStep_ge_cell (sep : Int) (j : Nat) :
    ∀ (rows : List (List Str)) (i acc r : Nat), r < rows.length →
      ((i + r : Nat) : Int) ≠ sep → j < (rows.getD r []).length →
      ((rows.getD r []).getD j []).length ≤ colWidthStep sep j rows i acc := by
  intro rows
  induction rows with
  | nil => intro i acc r hr; simp at hr
  | cons row rest ih =>
    intro i acc r hr hsep hj
    cases r with
    | zero =>
      simp only [List.getD_cons_zero] at hj ⊢
      rw [colWidthStep]
      have hs : ¬ ((i : Int) = sep) := by
        intro hc
        apply hsep
        simpa using hc
      rw [if_neg hs]
      have hg : row.get? j = some (row.getD j []) := by
        rw [List.getD_eq_getElem row [] hj]
        exact List.get?_eq_getElem? .. ▸ (by simp [List.getElem?_eq_getElem hj])
      rw [hg]
      exact le_trans (le_max_right _ _) (colWidthStep_ge_init sep j rest (i + 1) _)
    | succ r' =>
      simp only [List.getD_cons_succ] at hj ⊢
      rw [colWidthStep]
      apply ih (i + 1) _ r' (by simpa using hr) _ hj
      intro hc
      apply hsep
      rw [← hc]
      congr 1
      omega

theorem le_foldl_max (l : List Nat) (a : Nat) :
    a ≤ l.foldl max a ∧ ∀ x ∈ l, x ≤ l.foldl max a := by
  induction l generalizing a with
  | nil => simp
  | cons y ys ih =>
    have h1 := (ih (max a y)).1
    refine ⟨le_trans (le_max_left a y) h1, fun x hx => ?_⟩
    rcases List.mem_cons.mp hx with h | h
    · subst h
      exact le_trans (le_max_right a x) h1
    · exact (ih (max a y)).2 x h

theorem fmtColumnCount_ge (rows : List (List Str)) (r : Nat) (hr : r < rows.length) :
    (rows.getD r []).length ≤ fmtColumnCount rows := by
  have hmem : (rows.getD r []).length ∈ rows.map List.length := by
    rw [List.getD_eq_getElem rows [] hr]
    exact List.mem_map_of_mem _ (List.getElem_mem hr)
  exact (le_foldl_max (rows.map List.length) 0).2 _ hmem

theorem fmtColumnWidths_getD (t : MarkdownTable) (j : Nat)
    (hj : j < fmtColumnCount t.rows) :
    (fmtColumnWidths t).getD j 0 = colWidthStep t.separatorIndex j t.rows 0 3 := by
  rw [fmtColumnWidths]
  rw [List.getD_eq_getElem _ 0 (by simpa using hj)]
  simp

theorem fmtColumnWidths_ge3 (t : MarkdownTable) (j : Nat)
    (hj : j < fmtColumnCount t.rows) : 3 ≤ (fmtColumnWidths t).getD j 0 := by
  rw [fmtColumnWidths_getD t j hj]
  exact colWidthStep_ge_init _ _ _ _ _

theorem fmtColumnWidths_ge_cell (t : MarkdownTable) (r j : Nat) (hr : r < t.rows.length)
    (hsep : (r : Int) ≠ t.separatorIndex) (hj : j < (t.rows.getD r []).length) :
    ((t.rows.getD r []).getD j []).length ≤ (fmtColumnWidths t).getD j 0 := by
  have hcount : j < fmtColumnCount t.rows := lt_of_lt_of_le hj (fmtColumnCount_ge _ r hr)
  rw [fmtColumnWidths_getD t j hcount]
  exact colWidthStep_ge_cell t.separatorIndex j t.rows 0 3 r hr (by simpa using hsep) hj

theorem wrapPad_length (b : Bool) (s : Str) :
    (wrapPad b s).length = s.length + (if b then 2 else 0) := by
  cases b <;> simp [wrapPad]

theorem createSeparatorCell_length (cell : Str) (w : Nat) (cp sp : Bool)
    (al : Option ColumnAlignment) (hw : 3 ≤ w) :
    (createSeparatorCell cell w cp sp al).length = w + (if cp && sp then 2 else 0) := by
  obtain ⟨core, heq, _, _, hlen⟩ := createSeparatorCell_spec cell w cp sp al
  rw [heq, wrapPad_length, hlen hw]

theorem pipe_notMem_wrapPad (b : Bool) (s : Str) (h : '|' ∉ s) : '|' ∉ wrapPad b s := by
  cases b with
  | false =>
    rw [wrapPad, if_neg (by simp)]
    exact h
  | true =>
    rw [wrapPad, if_pos rfl]
    intro hc
    rcases List.mem_cons.mp hc with hc1 | hc1
    · cases hc1
    · rcases List.mem_append.mp hc1 with hc2 | hc2
      · exact h hc2
      · simp at hc2

theorem pipe_notMem_padCell (cell : Str) (w : Nat) (al : ColumnAlignment)
    (h : '|' ∉ cell) : '|' ∉ padCell cell w al := by
  obtain ⟨a, b, hab⟩ := padCell_decomp cell w al
  rw [hab]
  intro hc
  rcases List.mem_append.mp hc with hc2 | hc2
  · rcases List.mem_append.mp hc2 with hc3 | hc3
    · cases List.eq_of_mem_replicate hc3
    · exact h hc3
  · cases List.eq_of_mem_replicate hc2

theorem pipe_notMem_createSeparatorCell (cell : Str) (w : Nat) (cp sp : Bool)
    (al : Option ColumnAlignment) : '|' ∉ createSeparatorCell cell w cp sp al := by
  obtain ⟨core, heq, _, hch, _⟩ := createSeparatorCell_spec cell w cp sp al
  rw [heq]
  apply pipe_notMem_wrapPad
  intro hc
  rcases hch '|' hc with h | h <;> cases h

/-- Inner cell segments of a rendered line, recovered by stripping the outer
pipes and splitting on `|`. -/
def cellSegmentsOfLine (line : Str) : List Str :=
  splitCh '|' ((line.drop 1).dropLast)

theorem cellSegmentsOfLine_render (segs : List Str) (hne : segs ≠ [])
    (hfree : ∀ s ∈ segs, '|' ∉ s) :
    cellSegmentsOfLine ('|' :: joinSep ['|'] segs ++ ['|']) = segs := by
  rw [cellSegmentsOfLine]
  rw [show ('|' :: joinSep ['|'] segs ++ ['|']).drop 1 = joinSep ['|'] segs ++ ['|'] by simp]
  rw [List.dropLast_concat]
  exact splitCh_joinSep '|' segs hne hfree

-- ============================================================================
-- Locator well-formedness (what findTables guarantees about its tables)
-- ============================================================================

/-- The shape invariants enjoyed by every table produced by `findTables`:
at least two rows, separator at index 1, every row non-empty with trimmed,
pipe-free cells, every cell of row 1 matching the separator-cell pattern, and
some cell of row 0 not matching it. -/
def isLocatorWF (t : MarkdownTable) : Prop :=
  2 ≤ t.rows.length ∧ t.separatorIndex = 1 ∧
  (∀ row ∈ t.rows, row ≠ [] ∧ ∀ c ∈ row, trimStr c = c ∧ '|' ∉ c) ∧
  (∀ c ∈ t.rows.getD 1 [], sepCellCore c = true) ∧
  (∃ c ∈ t.rows.getD 0 [], ¬ sepCellCore c = true)

instance (t : MarkdownTable) : Decidable (isLocatorWF t) := by
  rw [isLocatorWF]
  infer_instance

-- ============================================================================
-- Claim C3: formatTable with maxWidth = 0
-- ============================================================================

theorem mem_mapWithIdx (f : Nat → α → β) (l : List α) (i : Nat) (d : α) :
    ∀ x ∈ mapWithIdx f l i, ∃ k, k < l.length ∧ x = f (i + k) (l.getD k d) := by
  induction l generalizing i with
  | nil => simp [mapWithIdx]
  | cons y ys ih =>
    intro x hx
    rcases List.mem_cons.mp hx with h | h
    · exact ⟨0, by simp, by simpa using h⟩
    · obtain ⟨k, hk, hxk⟩ := ih (i + 1) x h
      exact ⟨k + 1, by simpa using hk, by simpa [Nat.add_assoc, Nat.add_comm 1 k] using hxk⟩

theorem compactSepBase_dash (co : CompactOptions) (hw : Nat) :
    ∀ c ∈ compactSepBase co hw, c = '-' := by
  intro c hc
  rw [compactSepBase] at hc
  split at hc
  · exact List.eq_of_mem_replicate hc
  · simpa using hc

theorem pipe_notMem_wrapSepPad (b : Bool) (m : Str) (hm : ∀ c ∈ m, c = ':' ∨ c = '-') :
    '|' ∉ (if b = true then ' ' :: m ++ [' '] else m) := by
  intro hc
  split at hc
  · rcases List.mem_cons.mp hc with h | h
    · cases h
    · rcases List.mem_append.mp h with h2 | h2
      · rcases hm _ h2 with h3 | h3 <;> cases h3
      · simp at h2
  · rcases hm _ hc with h3 | h3 <;> cases h3

theorem pipe_notMem_formatCompactSeparatorCell (cell : Str) (al : ColumnAlignment)
    (co : CompactOptions) (hw : Nat) : '|' ∉ formatCompactSeparatorCell cell al co hw := by
  cases al with
  | left =>
    refine pipe_notMem_wrapSepPad _ _ (fun c hc => ?_)
    rcases List.mem_cons.mp hc with h | h
    · exact Or.inl h
    · exact Or.inr (compactSepBase_dash co hw c ((List.drop_sublist 1 _).subset h))
  | right =>
    refine pipe_notMem_wrapSepPad _ _ (fun c hc => ?_)
    rcases List.mem_append.mp hc with h | h
    · exact Or.inr (compactSepBase_dash co hw c ((List.dropLast_sublist _).subset h))
    · exact Or.inl (by simpa using h)
  | center =>
    refine pipe_notMem_wrapSepPad _ _ (fun c hc => ?_)
    rcases List.mem_cons.mp hc with h | h
    · exact Or.inl h
    · rcases List.mem_append.mp h with h2 | h2
      · exact Or.inr (compactSepBase_dash co hw c ((List.drop_sublist 1 _).subset
          ((List.dropLast_sublist _).subset h2)))
      · exact Or.inl (by simpa using h2)
  | none =>
    refine pipe_notMem_wrapSepPad _ _ (fun c hc => ?_)
    exact Or.inr (compactSepBase_dash co hw c hc)

theorem fmtBreakInfo_max0 (t : MarkdownTable) (o : FormatOptions) (hmax : o.maxWidth = 0) :
    fmtBreakInfo t o = (fmtColumnCount t.rows, 1) := by
  rw [fmtBreakInfo, if_neg (by omega)]

theorem jsOrNat_of_pos (n d : Nat) (h : 0 < n) : jsOrNat n d = n := by
  rw [jsOrNat, if_neg (by omega)]

/-- The two concrete tables and option records of the C3 counterexample. -/
def padMismatchTable : MarkdownTable :=
  { startLine := 0, endLine := 2, rows := [[['a', 'b']], [['-', '-', '-']], [['a']]],
    separatorIndex := 1, alignments := [.none] }

/-- Format options with cell padding on but separator padding off. -/
def padMismatchOptions : FormatOptions :=
  { maxWidth := 0, cellPadding := true, separatorPadding := false,
    preserveAlignment := true, keepSeparatorRatios := false }

/-- Two-column table with disproportionate separator dash runs. -/
def ratioTable : MarkdownTable :=
  { startLine := 0, endLine := 2,
    rows := [[['a'], ['b']], [['-', '-', '-', '-', '-', '-'], ['-', '-', '-']],
      [['x'], ['y']]],
    separatorIndex := 1, alignments := [.none, .none] }

/-- Format options with `keepSeparatorRatios` enabled and `maxWidth = 0`. -/
def ratioOptions : FormatOptions :=
  { maxWidth := 0, cellPadding := true, separatorPadding := true,
    preserveAlignment := true, keepSeparatorRatios := true }

theorem jsRound_eq (q : ℚ) : jsRound q = ⌊q + (1 : ℚ) / 2⌋ := rfl

theorem ratioTable_propWidths :
    fmtPropWidths ratioTable ratioOptions = some [4, 3] := by
  rw [fmtPropWidths, if_pos (by decide)]
  rw [show ((fmtColumnWidths ratioTable).foldl (· + ·) 0) = 6 from by decide]
  rw [show ratioTable.rows.getD (ratioTable.separatorIndex).toNat [] =
    [['-', '-', '-', '-', '-', '-'], ['-', '-', '-']] from by decide]
  rw [show ([4, 3] : List Nat) = [max 3 (jsRound ((6 : ℚ) / 9 * 6)).toNat,
    max 3 (jsRound ((3 : ℚ) / 9 * 6)).toNat] from by
      rw [jsRound_eq, jsRound_eq]
      rw [show ((6 : ℚ) / 9 * 6 + 1 / 2) = 9 / 2 by norm_num]
      rw [show ((3 : ℚ) / 9 * 6 + 1 / 2) = 5 / 2 by norm_num]
      rw [show (⌊(9 : ℚ) / 2⌋ : Int) = 4 from by norm_num]
      rw [show (⌊(5 : ℚ) / 2⌋ : Int) = 2 from by norm_num]
      decide]
  simp [calculateProportionalSeparatorWidths,
    show trimStr ['-', '-', '-', '-', '-', '-'] = ['-', '-', '-', '-', '-', '-'] from by decide,
    show trimStr ['-', '-', '-'] = ['-', '-', '-'] from by decide]

theorem ratioTable_separator_line :
    (formatTable ratioTable ratioOptions getDefaultCompactOptions).getD 1 [] =
      '|' :: joinSep ['|']
        (fmtSepCellsProp ratioTable ratioOptions [4, 3] (ratioTable.rows.getD 1 [])) ++
        ['|'] := by
  rw [formatTable, mapWithIdx_getD _ _ 0 1 (by decide) [] []]
  simp only [Nat.zero_add]
  rw [if_pos (by decide)]
  rw [fmtSeparatorLine, ratioTable_propWidths]

/-- C3 counterexample: two Locator-well-formed tables formatted with
`maxWidth = 0` where no single per-column width exists. With cell padding on
and separator padding off the data cells of column 0 render 5 wide but the
separator cell 3 wide; with `keepSeparatorRatios` on the separator cell of
column 0 renders 6 wide against 5-wide data cells. -/
theorem formatTable_uniform_width_counterexample :
    isLocatorWF padMismatchTable ∧
    (formatTable padMismatchTable padMismatchOptions getDefaultCompactOptions).map
      (fun line => (cellSegmentsOfLine line).map List.length) = [[5], [3], [5]] ∧
    (¬ ∃ w, ∀ r, r < 3 →
      ((cellSegmentsOfLine ((formatTable padMismatchTable padMismatchOptions
        getDefaultCompactOptions).getD r [])).getD 0 []).length = w) ∧
    isLocatorWF ratioTable ∧
    (cellSegmentsOfLine ((formatTable ratioTable ratioOptions
      getDefaultCompactOptions).getD 0 [])).map List.length = [5, 5] ∧
    (cellSegmentsOfLine ((formatTable ratioTable ratioOptions
      getDefaultCompactOptions).getD 1 [])).map List.length = [6, 5] ∧
    (¬ ∃ w, ∀ r, r < 3 →
      ((cellSegmentsOfLine ((formatTable ratioTable ratioOptions
        getDefaultCompactOptions).getD r [])).getD 0 []).length = w) := by
  have hsep1 : (cellSegmentsOfLine ((formatTable ratioTable ratioOptions
      getDefaultCompactOptions).getD 1 [])).map List.length = [6, 5] := by
    rw [ratioTable_separator_line]
    decide
  have hrow0 : (cellSegmentsOfLine ((formatTable ratioTable ratioOptions
      getDefaultCompactOptions).getD 0 [])).map List.length = [5, 5] := by
    rw [formatTable, mapWithIdx_getD _ _ 0 0 (by decide) [] []]
    decide
  refine ⟨by decide, by decide, ?_, by decide, hrow0, hsep1, ?_⟩
  · rintro ⟨w, hw⟩
    have h0 := hw 0 (by omega)
    have h1 := hw 1 (by omega)
    rw [show (((cellSegmentsOfLine ((formatTable padMismatchTable padMismatchOptions
      getDefaultCompactOptions).getD 0 [])).getD 0 []).length) = 5 from by decide] at h0
    rw [show (((cellSegmentsOfLine ((formatTable padMismatchTable padMismatchOptions
      getDefaultCompactOptions).getD 1 [])).getD 0 []).length) = 3 from by decide] at h1
    omega
  · rintro ⟨w, hw⟩
    have h0 := hw 0 (by omega)
    have h1 := hw 1 (by omega)
    have e0 : ((cellSegmentsOfLine ((formatTable ratioTable ratioOptions
        getDefaultCompactOptions).getD 0 [])).getD 0 []).length = 5 := by
      rw [formatTable, mapWithIdx_getD _ _ 0 0 (by decide) [] []]
      decide
    have e1 : ((cellSegmentsOfLine ((formatTable ratioTable ratioOptions
        getDefaultCompactOptions).getD 1 [])).getD 0 []).length = 6 := by
      rw [ratioTable_separator_line]
      decide
    rw [e0] at h0
    rw [e1] at h1
    omega

theorem fmtSeparatorLine_none (t : MarkdownTable) (o : FormatOptions) (co : CompactOptions)
    (row : List Str) (h : fmtPropWidths t o = Option.none) :
    fmtSeparatorLine t o co row = '|' :: joinSep ['|'] (fmtSepCells t o co row) ++ ['|'] := by
  rw [fmtSeparatorLine, h]

/-- C3 (amended): for every Locator-well-formed table and options with
`maxWidth = 0`, `keepSeparatorRatios` off, and separator padding enabled
whenever cell padding is (otherwise the one-space separator padding differs
from the data-cell padding), every rendered cell segment at column `j` — in
the header row, every data row, and the separator row — has the single width
`columnWidths[j] + (2 if cellPadding)`, where `columnWidths[j]` is the
maximum of 3 and the longest cell content of column `j` over non-separator
rows. -/
theorem formatTable_maxWidth0_uniform (t : MarkdownTable) (o : FormatOptions)
    (co : CompactOptions) (hWF : isLocatorWF t) (hmax : o.maxWidth = 0)
    (hkr : o.keepSeparatorRatios = false)
    (hpad : o.cellPadding = true → o.separatorPadding = true)
    (r j : Nat) (hr : r < t.rows.length) (hj : j < (t.rows.getD r []).length) :
    ((cellSegmentsOfLine ((formatTable t o co).getD r [])).getD j []).length =
      (fmtColumnWidths t).getD j 0 + (if o.cellPadding then 2 else 0) := by
  obtain ⟨hlen2, hsepIdx, hcells, hsepRow, hhdr⟩ := hWF
  have hrowmem : t.rows.getD r [] ∈ t.rows := by
    rw [List.getD_eq_getElem t.rows [] hr]
    exact List.getElem_mem hr
  have hrowne := (hcells _ hrowmem).1
  have hcount : j < fmtColumnCount t.rows :=
    lt_of_lt_of_le hj (fmtColumnCount_ge _ r hr)
  have hw3 : 3 ≤ (fmtColumnWidths t).getD j 0 := fmtColumnWidths_ge3 t j hcount
  have hline : (formatTable t o co).getD r [] =
      (if (r : Int) = t.separatorIndex then fmtSeparatorLine t o co (t.rows.getD r [])
       else if r = 0 ∧ 0 < o.maxWidth then fmtHeaderMaxLine t o co (t.rows.getD r [])
       else if r = 0 then fmtStandardLine t o (t.rows.getD r [])
       else if 0 < o.maxWidth then
         formatRowWithMaxWidth (t.rows.getD r []) (fmtColumnWidths t) (fmtAlignments t o)
           o co (fmtBreakInfo t o).1 (fmtBreakFit t o)
       else fmtStandardLine t o (t.rows.getD r [])) := by
    rw [formatTable, mapWithIdx_getD _ t.rows 0 r hr [] []]
    simp only [Nat.zero_add]
  by_cases hs : (r : Int) = t.separatorIndex
  · rw [hline, if_pos hs]
    have hprop : fmtPropWidths t o = Option.none := by
      rw [fmtPropWidths, if_neg]
      simp [hkr]
    rw [fmtSeparatorLine_none t o co _ hprop]
    rw [cellSegmentsOfLine_render (fmtSepCells t o co (t.rows.getD r []))
      (by
        intro hc
        have hlen := congrArg List.length hc
        rw [fmtSepCells, mapWithIdx_length] at hlen
        simp only [List.length_nil] at hlen
        exact hrowne (List.length_eq_zero.mp hlen))
      (by
        intro s hsm
        obtain ⟨k, hk, hsk⟩ := mem_mapWithIdx _ _ 0 [] s hsm
        simp only [Nat.zero_add] at hsk
        rw [hsk]
        split
        · exact pipe_notMem_createSeparatorCell _ _ _ _ _
        · split
          · split
            · exact pipe_notMem_createSeparatorCell _ _ _ _ _
            · exact pipe_notMem_formatCompactSeparatorCell _ _ _ _
          · exact pipe_notMem_formatCompactSeparatorCell _ _ _ _)]
    rw [fmtSepCells, mapWithIdx_getD _ _ 0 j hj [] []]
    simp only [Nat.zero_add]
    have hbi : (fmtBreakInfo t o).1 = fmtColumnCount t.rows := by
      rw [fmtBreakInfo_max0 t o hmax]
    rw [if_pos (show j < (fmtBreakInfo t o).1 by rw [hbi]; exact hcount)]
    rw [jsOrNat_of_pos _ 3 (by omega)]
    rw [createSeparatorCell_length _ _ _ _ _ hw3]
    congr 1
    cases hcp : o.cellPadding with
    | false => simp
    | true =>
      rw [hpad hcp]
      simp
  · rw [hline, if_neg hs]
    have hbr :
        (if r = 0 ∧ 0 < o.maxWidth then fmtHeaderMaxLine t o co (t.rows.getD r [])
         else if r = 0 then fmtStandardLine t o (t.rows.getD r [])
         else if 0 < o.maxWidth then
           formatRowWithMaxWidth (t.rows.getD r []) (fmtColumnWidths t) (fmtAlignments t o)
             o co (fmtBreakInfo t o).1 (fmtBreakFit t o)
         else fmtStandardLine t o (t.rows.getD r [])) =
        fmtStandardLine t o (t.rows.getD r []) := by
      by_cases h0 : r = 0
      · rw [if_neg (by omega), if_pos h0]
      · rw [if_neg (by omega), if_neg h0, if_neg (by omega)]
    rw [hbr, fmtStandardLine_eq]
    rw [cellSegmentsOfLine_render (fmtStandardCells t o (t.rows.getD r []))
      (by
        intro hc
        have hlen := congrArg List.length hc
        rw [fmtStandardCells, mapWithIdx_length] at hlen
        simp only [List.length_nil] at hlen
        exact hrowne (List.length_eq_zero.mp hlen))
      (by
        intro s hsm
        obtain ⟨k, hk, hsk⟩ := mem_mapWithIdx _ _ 0 [] s hsm
        simp only [Nat.zero_add] at hsk
        rw [hsk]
        apply pipe_notMem_wrapPad
        apply pipe_notMem_padCell
        have hcellmem : (t.rows.getD r []).getD k [] ∈ t.rows.getD r [] := by
          rw [List.getD_eq_getElem _ [] hk]
          exact List.getElem_mem hk
        exact ((hcells _ hrowmem).2 _ hcellmem).2)]
    rw [fmtStandardCells, mapWithIdx_getD _ _ 0 j hj [] []]
    simp only [Nat.zero_add]
    rw [wrapPad_length, padCell_length]
    have hcell : ((t.rows.getD r []).getD j []).length ≤ (fmtColumnWidths t).getD j 0 :=
      fmtColumnWidths_ge_cell t r j hr hs hj
    rw [jsOrNat_of_pos _ _ (by omega)]
    congr 1
    omega

/-- C3 witness: the amended statement evaluated on the concrete table at the
separator row with the default format options. -/
theorem formatTable_maxWidth0_uniform_witness :
    ((cellSegmentsOfLine ((formatTable padMismatchTable getDefaultFormatOptions
        getDefaultCompactOptions).getD 1 [])).getD 0 []).length =
      (fmtColumnWidths padMismatchTable).getD 0 0 +
        (if getDefaultFormatOptions.cellPadding then 2 else 0) :=
  formatTable_maxWidth0_uniform padMismatchTable getDefaultFormatOptions
    getDefaultCompactOptions (by decide) rfl rfl (fun _ => rfl) 1 0 (by decide) (by decide)

-- ============================================================================
-- Claim C4: compact round trip
-- ============================================================================

theorem render_getLast (m : Str) : (('|' :: m) ++ ['|']).getLast? = some '|' := by
  rw [List.getLast?_append]
  rfl

theorem isTableRow_render (m : Str) : isTableRow ('|' :: m ++ ['|']) = true := by
  rw [isTableRow, trimStr_pipe_bounded]
  rw [show (('|' :: m ++ ['|']) : Str).head? = some '|' from rfl, render_getLast]
  simp

theorem isTableSeparator_render (segs : List Str) (hne : segs ≠ [])
    (hfree : ∀ s ∈ segs, '|' ∉ s) :
    isTableSeparator ('|' :: joinSep ['|'] segs ++ ['|']) = segs.all sepCellMatch := by
  rw [isTableSeparator, trimStr_pipe_bounded]
  rw [if_pos (by
    rw [show (('|' :: joinSep ['|'] segs ++ ['|']) : Str).head? = some '|' from rfl,
      render_getLast]
    simp)]
  rw [show ('|' :: joinSep ['|'] segs ++ ['|']).drop 1 = joinSep ['|'] segs ++ ['|'] by simp]
  rw [List.dropLast_concat]
  rw [splitCh_joinSep '|' segs hne hfree]

theorem trimStr_of_chars (l : Str) (h : ∀ c ∈ l, c = ':' ∨ c = '-') : trimStr l = l := by
  apply trimStr_eq_self
  · intro c hc
    rcases h c (List.mem_of_mem_head? (by rw [hc]; rfl)) with h2 | h2 <;> subst h2 <;> rfl
  · intro c hc
    rcases h c (List.mem_of_mem_getLast? (by rw [hc]; rfl)) with h2 | h2 <;> subst h2 <;> rfl

theorem sepCellMatch_createSeparatorCell (cell : Str) (w : Nat) (cp sp : Bool)
    (al : Option ColumnAlignment) :
    sepCellMatch (createSeparatorCell cell w cp sp al) = true := by
  obtain ⟨core, heq, hcore, hch, _⟩ := createSeparatorCell_spec cell w cp sp al
  rw [sepCellMatch, heq]
  have htc : trimStr core = core := trimStr_of_chars core hch
  cases hb : (cp && sp) with
  | false =>
    rw [wrapPad, if_neg (by simp [hb]), htc]
    exact hcore
  | true =>
    rw [wrapPad, if_pos (by simp [hb]), trimStr_wrapSp core htc, hcore]

theorem trimStr_createSeparatorCell_core (cell : Str) (w : Nat) (cp sp : Bool)
    (al : Option ColumnAlignment) :
    sepCellCore (trimStr (createSeparatorCell cell w cp sp al)) = true :=
  sepCellMatch_createSeparatorCell cell w cp sp al

theorem all_congr_mem (l : List α) (p q : α → Bool) (h : ∀ x ∈ l, p x = q x) :
    l.all p = l.all q := by
  induction l with
  | nil => rfl
  | cons x xs ih =>
    simp only [List.all_cons, h x (List.mem_cons_self x xs),
      ih (fun y hy => h y (List.mem_cons_of_mem _ hy))]

theorem parse_map_trimFixed (row : List Str) (h : ∀ c ∈ row, trimStr c = c) :
    row.map trimStr = row := by
  have : row.map trimStr = row.map id := List.map_congr_left (fun c hc => h c hc)
  rw [this, List.map_id]

/-- Parsing a compacted non-separator row recovers its cells exactly. -/
theorem parse_compactTableRow_data (row : List Str) (hne : row ≠ [])
    (hcells : ∀ c ∈ row, trimStr c = c ∧ '|' ∉ c) (opts : CompactOptions)
    (hw : Option (List Nat)) (al : Option (List ColumnAlignment)) :
    parseTableRow (compactTableRow row false opts hw al) = row := by
  rw [show compactTableRow row false opts hw al =
    (if opts.cellPadding then
      '|' :: joinSep ['|'] (row.map (fun cell => ' ' :: cell ++ [' '])) ++ ['|']
    else '|' :: joinSep ['|'] row ++ ['|']) from rfl]
  cases hcp : opts.cellPadding with
  | true =>
    rw [if_pos rfl]
    rw [parseTableRow_render (row.map (fun cell => ' ' :: cell ++ [' ']))
      (by simpa using hne)
      (by
        intro p hp
        obtain ⟨c, hc, hcp2⟩ := List.mem_map.mp hp
        rw [← hcp2]
        intro hmem
        rcases List.mem_cons.mp hmem with h | h
        · cases h
        · rcases List.mem_append.mp h with h2 | h2
          · exact (hcells c hc).2 h2
          · simp at h2)]
    rw [List.map_map]
    have : row.map (trimStr ∘ fun cell => ' ' :: cell ++ [' ']) = row.map id := by
      apply List.map_congr_left
      intro c hc
      simp only [Function.comp_apply, id_eq]
      exact trimStr_wrapSp c (hcells c hc).1
    rw [this, List.map_id]
  | false =>
    rw [if_neg (by simp)]
    rw [parseTableRow_render row hne (fun p hp => (hcells p hp).2)]
    exact parse_map_trimFixed row (fun c hc => (hcells c hc).1)

/-- A compacted non-separator row renders as a separator line exactly when
all its cells match the separator-cell pattern. -/
theorem isTableSeparator_compactTableRow_data (row : List Str) (hne : row ≠ [])
    (hcells : ∀ c ∈ row, trimStr c = c ∧ '|' ∉ c) (opts : CompactOptions)
    (hw : Option (List Nat)) (al : Option (List ColumnAlignment)) :
    isTableSeparator (compactTableRow row false opts hw al) = row.all sepCellMatch := by
  rw [show compactTableRow row false opts hw al =
    (if opts.cellPadding then
      '|' :: joinSep ['|'] (row.map (fun cell => ' ' :: cell ++ [' '])) ++ ['|']
    else '|' :: joinSep ['|'] row ++ ['|']) from rfl]
  cases hcp : opts.cellPadding with
  | true =>
    rw [if_pos rfl]
    rw [isTableSeparator_render (row.map (fun cell => ' ' :: cell ++ [' ']))
      (by simpa using hne)
      (by
        intro p hp
        obtain ⟨c, hc, hcp2⟩ := List.mem_map.mp hp
        rw [← hcp2]
        intro hmem
        rcases List.mem_cons.mp hmem with h | h
        · cases h
        · rcases List.mem_append.mp h with h2 | h2
          · exact (hcells c hc).2 h2
          · simp at h2)]
    rw [List.all_map]
    apply all_congr_mem
    intro c hc
    simp only [Function.comp_apply]
    rw [sepCellMatch, trimStr_wrapSp c (hcells c hc).1, sepCellMatch,
      (hcells c hc).1]
  | false =>
    rw [if_neg (by simp)]
    exact isTableSeparator_render row hne (fun p hp => (hcells p hp).2)

theorem getD_map_in {α β : Type} (f : α → β) (l : List α) (i : Nat) (hi : i < l.length)
    (d : β) (d' : α) : (l.map f).getD i d = f (l.getD i d') := by
  rw [List.getD_eq_getElem _ d (by rw [List.length_map]; exact hi), List.getElem_map,
    ← List.getD_eq_getElem l d' hi]

theorem sep_line_props (segs : List Str) (hne : segs ≠ [])
    (hall : ∀ s ∈ segs, sepCellMatch s = true ∧ '|' ∉ s) :
    isTableSeparator ('|' :: joinSep ['|'] segs ++ ['|']) = true ∧
    parseTableRow ('|' :: joinSep ['|'] segs ++ ['|']) = segs.map trimStr := by
  constructor
  · rw [isTableSeparator_render segs hne (fun s hs => (hall s hs).2)]
    rw [List.all_eq_true]
    exact fun s hs => (hall s hs).1
  · exact parseTableRow_render segs hne (fun s hs => (hall s hs).2)

theorem scanRunEnd_all (lines : List Str) (h : ∀ l ∈ lines, isTableRow l = true) :
    ∀ i, i ≤ lines.length → scanRunEnd lines [] false i = lines.length := by
  intro i
  induction i using scanRunEnd.induct lines [] false with
  | case1 i hcond ih =>
    intro _
    rw [scanRunEnd, dif_pos hcond]
    exact ih (by omega)
  | case2 i hcond =>
    intro hle
    rw [scanRunEnd, dif_neg hcond]
    by_contra hne
    apply hcond
    have hlt : i < lines.length := by omega
    refine ⟨hlt, h _ ?_, by simp⟩
    rw [List.getD_eq_getElem lines [] hlt]
    exact List.getElem_mem hlt

theorem runLinesAt_full (lines : List Str) : runLinesAt lines 0 lines.length = lines := by
  rw [runLinesAt, Nat.sub_zero]
  apply List.ext_getElem
  · simp
  · intro n h1 h2
    rw [List.getElem_map, List.getElem_range']
    simp only [Nat.zero_add, Nat.one_mul]
    rw [List.getD_eq_getElem lines [] h2]

/-- On a non-empty document whose every line is a table row, `findTables`
scans a single run covering the whole document. -/
theorem findTables_all_rows (lines : List Str) (hne : lines ≠ [])
    (h : ∀ l ∈ lines, isTableRow l = true) :
    findTables lines false =
      if runAccepted lines 0 lines.length then [tableAt lines 0 lines.length] else [] := by
  show findTablesAux lines [] false 0 = _
  have hlen0 : 0 < lines.length := List.length_pos.mpr hne
  have hmem0 : lines.getD 0 [] ∈ lines := by
    rw [List.getD_eq_getElem lines [] hlen0]
    exact List.getElem_mem hlen0
  rw [findTablesAux.eq_def, dif_pos hlen0, if_neg (by simp), dif_pos (h _ hmem0)]
  rw [scanRunEnd_all lines h 0 (by omega)]
  have hrec : findTablesAux lines [] false lines.length = [] := by
    rw [findTablesAux.eq_def, dif_neg (by omega)]
  by_cases hacc : runAccepted lines 0 lines.length
  · rw [if_pos hacc, if_pos hacc, hrec]
  · rw [if_neg hacc, if_neg hacc, hrec]

/-- C4 (amended): re-locating a compacted Locator-well-formed table succeeds
and yields exactly one table, spanning the whole compacted output, with the
separator again at index 1; every non-separator row's cells are recovered
exactly; the separator row keeps its cell count and its cells still match
the separator pattern — but its dash counts are renormalised, so its cell
text is *not* preserved in general. -/
theorem compactTable_relocate (t : MarkdownTable) (co : CompactOptions)
    (hWF : isLocatorWF t) :
    ∃ t', findTables (compactTable t co) false = [t'] ∧
      t'.startLine = 0 ∧ t'.endLine = (t.rows.length : Int) - 1 ∧
      t'.separatorIndex = 1 ∧ t'.rows.length = t.rows.length ∧
      (∀ i, i ≠ 1 → t'.rows.getD i [] = t.rows.getD i []) ∧
      (t'.rows.getD 1 []).length = (t.rows.getD 1 []).length ∧
      (∀ c ∈ t'.rows.getD 1 [], sepCellCore c = true) := by
  obtain ⟨hlen2, hsepIdx, hcells, hsepRow, hhdr⟩ := hWF
  have hlinesLen : (compactTable t co).length = t.rows.length := by
    rw [compactTable, mapWithIdx_length]
  -- characterisation of each compacted line
  have hrowmem : ∀ i, i < t.rows.length → t.rows.getD i [] ∈ t.rows := by
    intro i hi
    rw [List.getD_eq_getElem t.rows [] hi]
    exact List.getElem_mem hi
  have hlineAt : ∀ i, i < t.rows.length → (compactTable t co).getD i [] =
      (if (i : Int) = t.separatorIndex then
        match compactSepWidths t co with
        | some sw => compactPropSepRow t co sw (t.rows.getD i [])
        | Option.none =>
          compactTableRow (t.rows.getD i []) true co (some (headerWidthsOf t))
            (some t.alignments)
      else
        compactTableRow (t.rows.getD i []) false co (some (headerWidthsOf t))
          (some t.alignments)) := by
    intro i hi
    rw [compactTable, mapWithIdx_getD _ t.rows 0 i hi [] []]
    simp only [Nat.zero_add]
  -- the separator line: cells of the rendered separator
  have hsepCellsOf : ∀ i, i < t.rows.length → (i : Int) = t.separatorIndex →
      ∃ segs : List Str, (compactTable t co).getD i [] =
        '|' :: joinSep ['|'] segs ++ ['|'] ∧ segs.length = (t.rows.getD i []).length ∧
        (∀ s ∈ segs, sepCellMatch s = true ∧ '|' ∉ s) := by
    intro i hi hisep
    rw [hlineAt i hi, if_pos hisep]
    cases hsw : compactSepWidths t co with
    | some sw =>
      refine ⟨_, rfl, mapWithIdx_length _ _ _, ?_⟩
      intro s hs
      obtain ⟨k, hk, hsk⟩ := mem_mapWithIdx _ _ 0 [] s hs
      rw [hsk]
      exact ⟨sepCellMatch_createSeparatorCell _ _ _ _ _,
        pipe_notMem_createSeparatorCell _ _ _ _ _⟩
    | none =>
      refine ⟨_, rfl, mapWithIdx_length _ _ _, ?_⟩
      intro s hs
      obtain ⟨k, hk, hsk⟩ := mem_mapWithIdx _ _ 0 [] s hs
      rw [hsk]
      exact ⟨sepCellMatch_createSeparatorCell _ _ _ _ _,
        pipe_notMem_createSeparatorCell _ _ _ _ _⟩
  -- every compacted line is a table row
  have hallrows : ∀ l ∈ compactTable t co, isTableRow l = true := by
    intro l hl
    obtain ⟨k, hk, hlk⟩ := mem_mapWithIdx _ _ 0 [] l hl
    simp only [Nat.zero_add] at hlk
    rw [hlk]
    by_cases hks : (k : Int) = t.separatorIndex
    · rw [if_pos hks]
      cases hsw : compactSepWidths t co with
      | some sw => exact isTableRow_render _
      | none =>
        rw [show compactTableRow (t.rows.getD k []) true co (some (headerWidthsOf t))
          (some t.alignments) = '|' :: joinSep ['|'] (mapWithIdx (fun index cell =>
            createSeparatorCell cell
              (if co.alignSeparatorWithHeader then jsOrNat ((headerWidthsOf t).getD index 0) 3
               else 3)
              co.cellPadding co.separatorPadding (t.alignments.get? index))
            (t.rows.getD k []) 0) ++ ['|'] from rfl]
        exact isTableRow_render _
    · rw [if_neg hks]
      rw [show compactTableRow (t.rows.getD k []) false co (some (headerWidthsOf t))
        (some t.alignments) = (if co.cellPadding then
          '|' :: joinSep ['|'] ((t.rows.getD k []).map (fun cell => ' ' :: cell ++ [' '])) ++
            ['|']
        else '|' :: joinSep ['|'] (t.rows.getD k []) ++ ['|']) from rfl]
      split
      · exact isTableRow_render _
      · exact isTableRow_render _
  have hlinesne : compactTable t co ≠ [] := by
    intro hc
    rw [hc] at hlinesLen
    simp at hlinesLen
    omega
  -- line 0 is not a separator, line 1 is
  have hline0 : isTableSeparator ((compactTable t co).getD 0 []) = false := by
    rw [hlineAt 0 (by omega), if_neg (by rw [hsepIdx]; simp)]
    rw [isTableSeparator_compactTableRow_data _ (hcells _ (hrowmem 0 (by omega))).1
      (fun c hc => (hcells _ (hrowmem 0 (by omega))).2 c hc) co _ _]
    rw [List.all_eq_false]
    obtain ⟨c, hcmem, hcc⟩ := hhdr
    refine ⟨c, hcmem, ?_⟩
    rw [sepCellMatch, ((hcells _ (hrowmem 0 (by omega))).2 c hcmem).1]
    simpa using hcc
  have hline1 : isTableSeparator ((compactTable t co).getD 1 []) = true := by
    obtain ⟨segs, hseq, hslen, hsall⟩ := hsepCellsOf 1 (by omega) (by rw [hsepIdx]; norm_num)
    rw [hseq]
    exact (sep_line_props segs (by
      intro hc
      rw [hc] at hslen
      simp only [List.length_nil] at hslen
      exact (hcells _ (hrowmem 1 (by omega))).1
        (List.length_eq_zero.mp hslen.symm)) hsall).1
  -- acceptance
  have hft := findTables_all_rows (compactTable t co) hlinesne hallrows
  obtain ⟨l0, ls, hl0⟩ := List.exists_cons_of_ne_nil hlinesne
  have hlsne : ls ≠ [] := by
    intro h
    rw [hl0, h] at hlinesLen
    simp at hlinesLen
    omega
  obtain ⟨l1, rest, hl1⟩ := List.exists_cons_of_ne_nil hlsne
  have hacc : runAccepted (compactTable t co) 0 (compactTable t co).length := by
    constructor
    · rw [List.length_map, runLinesAt_full, hlinesLen]
      omega
    · have he0 : isTableSeparator l0 = false := by
        rw [show l0 = (compactTable t co).getD 0 [] by rw [hl0]; rfl]
        exact hline0
      have he1 : isTableSeparator l1 = true := by
        rw [show l1 = (compactTable t co).getD 1 [] by rw [hl0, hl1]; rfl]
        exact hline1
      rw [runLinesAt_full, hl0, hl1, List.findIdx?_cons, if_neg (by simp [he0]),
        List.findIdx?_cons, if_pos he1]
  rw [hft, if_pos hacc]
  refine ⟨tableAt (compactTable t co) 0 (compactTable t co).length, rfl, rfl, ?_, rfl, ?_,
    ?_, ?_, ?_⟩
  · show ((compactTable t co).length : Int) - 1 = (t.rows.length : Int) - 1
    rw [hlinesLen]
  · show ((runLinesAt (compactTable t co) 0 (compactTable t co).length).map
      parseTableRow).length = t.rows.length
    rw [List.length_map, runLinesAt_full, hlinesLen]
  · intro i hi
    show ((runLinesAt (compactTable t co) 0 (compactTable t co).length).map
      parseTableRow).getD i [] = t.rows.getD i []
    rw [runLinesAt_full]
    by_cases hilt : i < t.rows.length
    · rw [getD_map_in parseTableRow _ i (by rw [hlinesLen]; exact hilt) [] []]
      rw [hlineAt i hilt, if_neg (by rw [hsepIdx]; omega)]
      exact parse_compactTableRow_data _ (hcells _ (hrowmem i hilt)).1
        (fun c hc => (hcells _ (hrowmem i hilt)).2 c hc) co _ _
    · rw [List.getD_eq_default _ _ (by rw [List.length_map, hlinesLen]; omega),
        List.getD_eq_default _ _ (by omega)]
  · show (((runLinesAt (compactTable t co) 0 (compactTable t co).length).map
      parseTableRow).getD 1 []).length = (t.rows.getD 1 []).length
    rw [runLinesAt_full]
    rw [getD_map_in parseTableRow _ 1 (by rw [hlinesLen]; omega) [] []]
    obtain ⟨segs, hseq, hslen, hsall⟩ := hsepCellsOf 1 (by omega) (by rw [hsepIdx]; norm_num)
    rw [hseq]
    rw [(sep_line_props segs (by
      intro hc
      rw [hc] at hslen
      simp only [List.length_nil] at hslen
      exact (hcells _ (hrowmem 1 (by omega))).1
        (List.length_eq_zero.mp hslen.symm)) hsall).2]
    rw [List.length_map, hslen]
  · intro c hc
    revert hc
    show c ∈ ((runLinesAt (compactTable t co) 0 (compactTable t co).length).map
      parseTableRow).getD 1 [] → sepCellCore c = true
    rw [runLinesAt_full]
    rw [getD_map_in parseTableRow _ 1 (by rw [hlinesLen]; omega) [] []]
    obtain ⟨segs, hseq, hslen, hsall⟩ := hsepCellsOf 1 (by omega) (by rw [hsepIdx]; norm_num)
    rw [hseq]
    rw [(sep_line_props segs (by
      intro hc
      rw [hc] at hslen
      simp only [List.length_nil] at hslen
      exact (hcells _ (hrowmem 1 (by omega))).1
        (List.length_eq_zero.mp hslen.symm)) hsall).2]
    intro hc
    obtain ⟨s, hs, hsc⟩ := List.mem_map.mp hc
    rw [← hsc]
    exact (hsall s hs).1

/-- A three-line source document whose table the Locator accepts; its
separator row is written with six dashes. -/
def c4SrcLines : List Str := [strOf "| Name |", strOf "| ------ |", strOf "| John |"]

/-- C4: counterexample. Locating the table in `c4SrcLines`, compacting it with
the default options and re-locating succeeds and preserves the trimmed text of
the header and data cells, but the separator cell's trimmed text changes from
`------` to `----`: the round trip does not preserve every cell's trimmed text. -/
theorem compactTable_roundtrip_counterexample :
    ∃ T T', findTables c4SrcLines false = [T] ∧
      findTables (compactTable T getDefaultCompactOptions) false = [T'] ∧
      T'.rows.length = T.rows.length ∧
      (T'.rows.getD 0 []).map trimStr = (T.rows.getD 0 []).map trimStr ∧
      (T'.rows.getD 2 []).map trimStr = (T.rows.getD 2 []).map trimStr ∧
      (T'.rows.getD 1 []).map trimStr ≠ (T.rows.getD 1 []).map trimStr := by
  have h1 := findTables_all_rows c4SrcLines (by decide) (by decide)
  rw [if_pos (by decide)] at h1
  have h2 := findTables_all_rows
    (compactTable (tableAt c4SrcLines 0 c4SrcLines.length) getDefaultCompactOptions)
    (by decide) (by decide)
  rw [if_pos (by decide)] at h2
  exact ⟨_, _, h1, h2, by decide, by decide, by decide, by decide⟩

/-- A Locator-well-formed two-row table used to witness `compactTable_relocate`. -/
def c4WitnessTable : MarkdownTable :=
  { startLine := 0
    endLine := 1
    rows := [[strOf "Name"], [strOf "---"]]
    separatorIndex := 1
    alignments := [ColumnAlignment.none] }

theorem strOf_comma : strOf "," = [','] := rfl

theorem containsStr_single (c : Char) (l : Str) : containsStr [c] l = true ↔ c ∈ l := by
  induction l with
  | nil => simp [containsStr]
  | cons x t ih =>
    rw [containsStr]
    simp only [List.length_cons, List.length_nil, Nat.zero_add, List.take_succ_cons,
      List.take_zero, Bool.or_eq_true, decide_eq_true_eq, ih, List.cons.injEq, and_true,
      List.mem_cons]

theorem mem_dropWhile_of_not (p : Char → Bool) (l : Str) (c : Char) (hm : c ∈ l)
    (hp : p c = false) : c ∈ l.dropWhile p := by
  rw [← List.takeWhile_append_dropWhile p l] at hm
  rcases List.mem_append.mp hm with h | h
  · have := List.mem_takeWhile_imp h
    rw [hp] at this
    exact absurd this (by simp)
  · exact h

theorem mem_trimStr (l : Str) (c : Char) (h : c ∈ trimStr l) : c ∈ l := by
  rw [trimStr, dropTrailingWS, List.mem_reverse] at h
  have h2 := (List.dropWhile_sublist _).subset h
  rw [List.mem_reverse] at h2
  exact (List.dropWhile_sublist _).subset h2

theorem trimStr_ne_nil (l : Str) (c : Char) (hm : c ∈ l) (hw : isWSChar c = false) :
    trimStr l ≠ [] := by
  intro h
  have h1 : c ∈ l.dropWhile isWSChar := mem_dropWhile_of_not _ _ _ hm hw
  have h2 : c ∈ (l.dropWhile isWSChar).reverse := List.mem_reverse.mpr h1
  have h3 : c ∈ (l.dropWhile isWSChar).reverse.dropWhile isWSChar :=
    mem_dropWhile_of_not _ _ _ h2 hw
  rw [trimStr, dropTrailingWS, List.reverse_eq_nil_iff] at h
  rw [h] at h3
  exact absurd h3 (List.not_mem_nil c)

theorem mem_joinSep (sep : Str) (parts : List Str) (c : Char) (h : c ∈ joinSep sep parts) :
    (∃ p ∈ parts, c ∈ p) ∨ c ∈ sep := by
  induction parts with
  | nil => exact absurd h (List.not_mem_nil c)
  | cons x xs ih =>
    cases xs with
    | nil => exact Or.inl ⟨x, by simp, h⟩
    | cons y ys =>
      have e : joinSep sep (x :: y :: ys) = x ++ sep ++ joinSep sep (y :: ys) := rfl
      rw [e] at h
      rcases List.mem_append.mp h with h1 | h1
      · rcases List.mem_append.mp h1 with h2 | h2
        · exact Or.inl ⟨x, by simp, h2⟩
        · exact Or.inr h2
      · rcases ih h1 with ⟨p, hp, hc⟩ | h2
        · exact Or.inl ⟨p, List.mem_cons_of_mem _ hp, hc⟩
        · exact Or.inr h2

theorem sep_mem_joinSep (sep : Str) (x y : Str) (ys : List Str) (c : Char) (hc : c ∈ sep) :
    c ∈ joinSep sep (x :: y :: ys) := by
  have e : joinSep sep (x :: y :: ys) = x ++ sep ++ joinSep sep (y :: ys) := rfl
  rw [e]
  exact List.mem_append.mpr (Or.inl (List.mem_append.mpr (Or.inr hc)))

theorem getLast_joinSep (sep : Str) (parts : List Str) (c : Char)
    (h : (joinSep sep parts).getLast? = some c) :
    (∃ p ∈ parts, p.getLast? = some c) ∨ sep.getLast? = some c := by
  induction parts with
  | nil => simp [joinSep] at h
  | cons x xs ih =>
    cases xs with
    | nil => exact Or.inl ⟨x, by simp, h⟩
    | cons y ys =>
      have e : joinSep sep (x :: y :: ys) = (x ++ sep) ++ joinSep sep (y :: ys) := rfl
      rw [e] at h
      by_cases hJ : joinSep sep (y :: ys) = []
      · rw [hJ, List.append_nil] at h
        by_cases hs : sep = []
        · rw [hs, List.append_nil] at h
          exact Or.inl ⟨x, by simp, h⟩
        · rw [List.getLast?_append_of_ne_nil _ hs] at h
          exact Or.inr h
      · rw [List.getLast?_append_of_ne_nil _ hJ] at h
        rcases ih h with ⟨p, hp, hpc⟩ | hsep
        · exact Or.inl ⟨p, List.mem_cons_of_mem _ hp, hpc⟩
        · exact Or.inr hsep

theorem filterWithIdx_ne1_ge2 {α : Type} (l : List α) :
    ∀ k, 2 ≤ k → filterWithIdx (fun i _ => decide ((i : Int) ≠ 1)) l k = l := by
  induction l with
  | nil => intro k _; rfl
  | cons x xs ih =>
    intro k hk
    have e : filterWithIdx (fun i _ => decide ((i : Int) ≠ 1)) (x :: xs) k =
        if decide ((k : Int) ≠ 1) = true then
          x :: filterWithIdx (fun i _ => decide ((i : Int) ≠ 1)) xs (k + 1)
        else filterWithIdx (fun i _ => decide ((i : Int) ≠ 1)) xs (k + 1) := rfl
    rw [e, if_pos (by simp only [decide_eq_true_eq]; omega), ih (k + 1) (by omega)]

theorem splitNL_cons_other (c : Char) (rest : Str) (hc1 : c ≠ '\n')
    (hc2 : c = '\r' → rest.head? ≠ some '\n') :
    splitNL (c :: rest) =
      match splitNL rest with
      | r :: rs => (c :: r) :: rs
      | [] => [[c]] := by
  rw [splitNL.eq_def]
  split <;> simp_all

theorem splitNL_no_newline (s : Str) (h : '\n' ∉ s) : splitNL s = [s] := by
  induction s with
  | nil => rfl
  | cons c cs ih =>
    have hc1 : c ≠ '\n' := fun hc => h (hc ▸ List.mem_cons_self c cs)
    have h2 : '\n' ∉ cs := fun hm => h (List.mem_cons_of_mem c hm)
    have hc2 : c = '\r' → cs.head? ≠ some '\n' := by
      intro _ hh
      cases cs with
      | nil => simp at hh
      | cons d ds =>
        simp only [List.head?_cons, Option.some.injEq] at hh
        exact h2 (hh ▸ List.mem_cons_self d ds)
    rw [splitNL_cons_other c cs hc1 hc2, ih h2]

theorem mem_splitNL_no_newline (s : Str) : ∀ p ∈ splitNL s, '\n' ∉ p := by
  induction s using splitNL.induct with
  | case1 =>
    intro p hp
    simp only [splitNL, List.mem_singleton] at hp
    rw [hp]
    exact List.not_mem_nil _
  | case2 rest ih =>
    intro p hp
    rw [show splitNL ('\r' :: '\n' :: rest) = [] :: splitNL rest from rfl] at hp
    rcases List.mem_cons.mp hp with h | h
    · rw [h]; exact List.not_mem_nil _
    · exact ih p h
  | case3 rest ih =>
    intro p hp
    rw [show splitNL ('\n' :: rest) = [] :: splitNL rest from rfl] at hp
    rcases List.mem_cons.mp hp with h | h
    · rw [h]; exact List.not_mem_nil _
    · exact ih p h
  | case4 c rest h1 h2 r rs heq ih =>
    intro p hp
    have hc2 : c = '\r' → rest.head? ≠ some '\n' := by
      intro hcr hh
      cases rest with
      | nil => simp at hh
      | cons d ds =>
        simp only [List.head?_cons, Option.some.injEq] at hh
        exact h1 ds hcr (by rw [hh])
    rw [splitNL_cons_other c rest h2 hc2, heq] at hp
    rcases List.mem_cons.mp hp with h | h
    · rw [h]
      intro hmem
      rcases List.mem_cons.mp hmem with h' | h'
      · exact h2 h'.symm
      · exact ih r (by rw [heq]; exact List.mem_cons_self r rs) h'
    · exact ih p (by rw [heq]; exact List.mem_cons_of_mem r h)
  | case5 c rest h1 h2 heq ih =>
    intro p hp
    have hc2 : c = '\r' → rest.head? ≠ some '\n' := by
      intro hcr hh
      cases rest with
      | nil => simp at hh
      | cons d ds =>
        simp only [List.head?_cons, Option.some.injEq] at hh
        exact h1 ds hcr (by rw [hh])
    rw [splitNL_cons_other c rest h2 hc2, heq] at hp
    simp only [List.mem_singleton] at hp
    rw [hp]
    intro hmem
    rcases List.mem_cons.mp hmem with h' | h'
    · exact h2 h'.symm
    · exact absurd h' (List.not_mem_nil _)

theorem splitNL_append_nl (p : Str) (rest : Str) (hn : '\n' ∉ p)
    (hr : p.getLast? ≠ some '\r') :
    splitNL (p ++ '\n' :: rest) = p :: splitNL rest := by
  induction p with
  | nil => rfl
  | cons c p' ih =>
    have hc1 : c ≠ '\n' := fun hc => hn (hc ▸ List.mem_cons_self _ _)
    have hn' : '\n' ∉ p' := fun hm => hn (List.mem_cons_of_mem _ hm)
    have hc2 : c = '\r' → (p' ++ '\n' :: rest).head? ≠ some '\n' := by
      intro hcr hh
      cases p' with
      | nil => exact hr (by rw [hcr]; rfl)
      | cons d ds =>
        simp only [List.cons_append, List.head?_cons, Option.some.injEq] at hh
        exact hn' (hh ▸ List.mem_cons_self d ds)
    have hr' : p'.getLast? ≠ some '\r' := by
      intro hh
      apply hr
      cases p' with
      | nil => simp at hh
      | cons d ds => rw [List.getLast?_cons_cons]; exact hh
    rw [List.cons_append, splitNL_cons_other c _ hc1 hc2, ih hn' hr']

theorem splitNL_joinSep (parts : List Str) (hne : parts ≠ [])
    (h : ∀ p ∈ parts, '\n' ∉ p ∧ p.getLast? ≠ some '\r') :
    splitNL (joinSep ['\n'] parts) = parts := by
  induction parts with
  | nil => exact absurd rfl hne
  | cons x xs ih =>
    cases xs with
    | nil => exact splitNL_no_newline x (h x (by simp)).1
    | cons y ys =>
      have e : joinSep ['\n'] (x :: y :: ys) = x ++ '\n' :: joinSep ['\n'] (y :: ys) := by
        show x ++ ['\n'] ++ joinSep ['\n'] (y :: ys) = _
        rw [List.append_assoc]
        rfl
      rw [e, splitNL_append_nl x _ (h x (by simp)).1 (h x (by simp)).2,
        ih (by simp) (fun p hp => h p (List.mem_cons_of_mem _ hp))]

theorem aux_nil (d cur : Str) (q : Bool) : parseCsvLineAux d [] cur q = [cur] := rfl

theorem aux_quote_pair (d cs2 cur : Str) :
    parseCsvLineAux d ('"' :: '"' :: cs2) cur true =
      parseCsvLineAux d cs2 (cur ++ ['"']) true := rfl

theorem aux_quote_open (d cs cur : Str) :
    parseCsvLineAux d ('"' :: cs) cur false = parseCsvLineAux d cs cur true := by
  rw [parseCsvLineAux.eq_def]
  split <;> (try simp_all)
  all_goals
    rename_i heq2 hcn
    exact absurd heq2.1.symm hcn

theorem aux_quote_close_nil (d cur : Str) :
    parseCsvLineAux d ['"'] cur true = [cur] := rfl

theorem aux_quote_close_cons (d : Str) (c : Char) (cs cur : Str) (hc : c ≠ '"') :
    parseCsvLineAux d ('"' :: c :: cs) cur true = parseCsvLineAux d (c :: cs) cur false := by
  rw [parseCsvLineAux.eq_def]
  split <;> (try simp_all)
  all_goals
    rename_i heq2 hcn
    exact absurd heq2.1.symm hcn

theorem aux_other (d : Str) (c : Char) (cs cur : Str) (q : Bool) (hc : c ≠ '"') :
    parseCsvLineAux d (c :: cs) cur q =
      if d = [c] ∧ q = false then cur :: parseCsvLineAux d cs [] false
      else parseCsvLineAux d cs (cur ++ [c]) q := by
  rw [parseCsvLineAux.eq_def]
  split <;> simp_all

theorem parseCsvLineAux_ne_nil (d : Str) (s cur : Str) (q : Bool) :
    parseCsvLineAux d s cur q ≠ [] := by
  induction s, cur, q using parseCsvLineAux.induct d with
  | case1 cur x => simp [aux_nil]
  | case2 cs2 cur ih => rw [aux_quote_pair]; exact ih
  | case3 cs cur h ih =>
    cases cs with
    | nil => simp [aux_quote_close_nil]
    | cons c cs' =>
      have hc : c ≠ '"' := fun hcc => h cs' (by rw [hcc])
      rw [aux_quote_close_cons d c cs' cur hc]
      exact ih
  | case4 cs cur ih => rw [aux_quote_open]; exact ih
  | case5 c cs cur inQuotes h1 h2 h3 hcond ih =>
    have hc : c ≠ '"' := by
      intro hcc
      cases hq : inQuotes
      · exact h3 hcc hq
      · exact h2 hcc hq
    rw [aux_other d c cs cur inQuotes hc, if_pos hcond]
    simp
  | case6 c cs cur inQuotes h1 h2 h3 hcond ih =>
    have hc : c ≠ '"' := by
      intro hcc
      cases hq : inQuotes
      · exact h3 hcc hq
      · exact h2 hcc hq
    rw [aux_other d c cs cur inQuotes hc, if_neg hcond]
    exact ih

theorem parseCsvLineAux_chars (d : Str) (s cur : Str) (q : Bool) :
    ∀ cell ∈ parseCsvLineAux d s cur q, ∀ ch ∈ cell, ch ∈ cur ∨ ch ∈ s := by
  induction s, cur, q using parseCsvLineAux.induct d with
  | case1 cur x =>
    intro cell hcell ch hch
    rw [aux_nil] at hcell
    simp only [List.mem_singleton] at hcell
    exact Or.inl (hcell ▸ hch)
  | case2 cs2 cur ih =>
    intro cell hcell ch hch
    rw [aux_quote_pair] at hcell
    rcases ih cell hcell ch hch with h | h
    · rcases List.mem_append.mp h with h2 | h2
      · exact Or.inl h2
      · simp only [List.mem_singleton] at h2
        exact Or.inr (by rw [h2]; simp)
    · exact Or.inr (by simp [h])
  | case3 cs cur h ih =>
    intro cell hcell ch hch
    cases cs with
    | nil =>
      rw [aux_quote_close_nil] at hcell
      simp only [List.mem_singleton] at hcell
      exact Or.inl (hcell ▸ hch)
    | cons c cs' =>
      have hc : c ≠ '"' := fun hcc => h cs' (by rw [hcc])
      rw [aux_quote_close_cons d c cs' cur hc] at hcell
      rcases ih cell hcell ch hch with h2 | h2
      · exact Or.inl h2
      · exact Or.inr (List.mem_cons_of_mem _ h2)
  | case4 cs cur ih =>
    intro cell hcell ch hch
    rw [aux_quote_open] at hcell
    rcases ih cell hcell ch hch with h2 | h2
    · exact Or.inl h2
    · exact Or.inr (List.mem_cons_of_mem _ h2)
  | case5 c cs cur inQuotes h1 h2 h3 hcond ih =>
    intro cell hcell ch hch
    have hc : c ≠ '"' := by
      intro hcc
      cases hq : inQuotes
      · exact h3 hcc hq
      · exact h2 hcc hq
    rw [aux_other d c cs cur inQuotes hc, if_pos hcond] at hcell
    rcases List.mem_cons.mp hcell with hcc | hcc
    · exact Or.inl (hcc ▸ hch)
    · rcases ih cell hcc ch hch with h4 | h4
      · exact absurd h4 (List.not_mem_nil ch)
      · exact Or.inr (List.mem_cons_of_mem _ h4)
  | case6 c cs cur inQuotes h1 h2 h3 hcond ih =>
    intro cell hcell ch hch
    have hc : c ≠ '"' := by
      intro hcc
      cases hq : inQuotes
      · exact h3 hcc hq
      · exact h2 hcc hq
    rw [aux_other d c cs cur inQuotes hc, if_neg hcond] at hcell
    rcases ih cell hcell ch hch with h4 | h4
    · rcases List.mem_append.mp h4 with h5 | h5
      · exact Or.inl h5
      · simp only [List.mem_singleton] at h5
        exact Or.inr (by rw [h5]; exact List.mem_cons_self c cs)
    · exact Or.inr (List.mem_cons_of_mem _ h4)

theorem aux_unquoted (cell : Str) (hq : '"' ∉ cell) (hd : ',' ∉ cell) :
    ∀ rest cur, parseCsvLineAux [','] (cell ++ rest) cur false =
      parseCsvLineAux [','] rest (cur ++ cell) false := by
  induction cell with
  | nil => intro rest cur; simp
  | cons ch cs ih =>
    intro rest cur
    have hch : ch ≠ '"' := fun h => hq (h ▸ List.mem_cons_self ch cs)
    have hcd : ch ≠ ',' := fun h => hd (h ▸ List.mem_cons_self ch cs)
    have hq' : '"' ∉ cs := fun h => hq (List.mem_cons_of_mem _ h)
    have hd' : ',' ∉ cs := fun h => hd (List.mem_cons_of_mem _ h)
    rw [List.cons_append, aux_other _ ch _ cur false hch,
      if_neg (fun hcontra => hcd (List.cons.inj hcontra.1).1.symm),
      ih hq' hd' rest (cur ++ [ch]), List.append_assoc]
    rfl

theorem aux_quoted (content : Str) :
    ∀ rest cur, rest.head? ≠ some '"' →
      parseCsvLineAux [','] (csvEscape content ++ '"' :: rest) cur true =
      parseCsvLineAux [','] rest (cur ++ content) false := by
  induction content with
  | nil =>
    intro rest cur hr
    rw [show csvEscape [] = [] from rfl, List.nil_append]
    cases rest with
    | nil => simp [aux_quote_close_nil, aux_nil]
    | cons r rs =>
      have hrne : r ≠ '"' := by
        intro hh
        exact hr (by rw [hh]; rfl)
      rw [aux_quote_close_cons _ r rs cur hrne, List.append_nil]
  | cons ch cs ih =>
    intro rest cur hr
    by_cases hch : ch = '"'
    · rw [hch, show csvEscape ('"' :: cs) = '"' :: '"' :: csvEscape cs from rfl,
        List.cons_append, List.cons_append, aux_quote_pair,
        ih rest (cur ++ ['"']) hr, List.append_assoc]
      rfl
    · rw [show csvEscape (ch :: cs) =
          (if ch = '"' then ['"', '"'] else [ch]) ++ csvEscape cs from rfl,
        if_neg hch, List.singleton_append, List.cons_append,
        aux_other _ ch _ cur true hch,
        if_neg (fun hcontra => absurd hcontra.2 (by simp)),
        ih rest (cur ++ [ch]) hr, List.append_assoc]
      rfl

theorem csvNeedsQuotes_default (cell : Str) :
    csvNeedsQuotes getDefaultCsvOptions cell ↔
      (containsStr (strOf ",") cell = true ∨ containsStr [Char.ofNat 10] cell = true ∨
       containsStr ['"'] cell = true) := by
  simp [csvNeedsQuotes, getDefaultCsvOptions]

theorem aux_cell (cell rest : Str) (hr : rest.head? ≠ some '"') :
    parseCsvLineAux [','] (csvEmitCell getDefaultCsvOptions cell ++ rest) [] false =
      parseCsvLineAux [','] rest cell false := by
  rw [csvEmitCell]
  by_cases hq : csvNeedsQuotes getDefaultCsvOptions cell
  · rw [if_pos hq]
    simp only [List.cons_append, List.append_assoc, List.singleton_append]
    rw [aux_quote_open]
    have := aux_quoted cell rest [] hr
    rw [List.nil_append] at this
    exact this
  · rw [if_neg hq]
    have hnc : ',' ∉ cell := by
      intro hm
      exact hq ((csvNeedsQuotes_default cell).mpr
        (Or.inl (by rw [strOf_comma]; exact (containsStr_single ',' cell).mpr hm)))
    have hqc : '"' ∉ cell := by
      intro hm
      exact hq ((csvNeedsQuotes_default cell).mpr
        (Or.inr (Or.inr ((containsStr_single '"' cell).mpr hm))))
    have := aux_unquoted cell hqc hnc rest []
    rw [List.nil_append] at this
    exact this

theorem aux_cells (cells : List Str) (hne : cells ≠ []) :
    parseCsvLineAux [',']
      (joinSep [','] (cells.map (csvEmitCell getDefaultCsvOptions))) [] false = cells := by
  induction cells with
  | nil => exact absurd rfl hne
  | cons c cs ih =>
    cases cs with
    | nil =>
      show parseCsvLineAux [','] (csvEmitCell getDefaultCsvOptions c) [] false = [c]
      have := aux_cell c [] (by simp)
      rw [List.append_nil] at this
      rw [this, aux_nil]
    | cons c2 cs2 =>
      have e : joinSep [','] ((c :: c2 :: cs2).map (csvEmitCell getDefaultCsvOptions)) =
          csvEmitCell getDefaultCsvOptions c ++ ',' ::
            joinSep [','] ((c2 :: cs2).map (csvEmitCell getDefaultCsvOptions)) := by
        show csvEmitCell getDefaultCsvOptions c ++ [','] ++ _ = _
        rw [List.append_assoc]
        rfl
      rw [e, aux_cell c _ (by simp), aux_other _ ',' _ c false (by decide),
        if_pos ⟨rfl, rfl⟩, ih (by simp)]

theorem parseCsvLine_emit (row : List Str) (hne : row ≠ [])
    (htrim : ∀ c ∈ row, trimStr c = c) :
    (parseCsvLine (joinSep (strOf ",") (row.map (csvEmitCell getDefaultCsvOptions)))
      (strOf ",")).map trimStr = row := by
  rw [strOf_comma, parseCsvLine, aux_cells row hne, List.map_congr_left htrim]
  simp

/-- The data rows `parseCsv` computes before inserting the synthetic
separator: the blank-line-filtered split of the text, each line parsed by
`parseCsvLine` with trimmed cells (default options). -/
def csvRows0 (text : Str) : List (List Str) :=
  ((splitNL text).filter (fun l => trimStr l ≠ [])).map
    (fun l => (parseCsvLine l (strOf ",")).map trimStr)

theorem parseCsv_default_rows (text : Str) :
    (parseCsv text getDefaultCsvOptions).rows =
      if getDefaultCsvOptions.hasHeader = true ∧ csvRows0 text ≠ [] then
        (csvRows0 text).take 1 ++
          [List.replicate ((csvRows0 text).headD []).length (strOf "---")] ++
          (csvRows0 text).drop 1
      else csvRows0 text := rfl

theorem parseCsv_fields (text : Str) :
    parseCsv text getDefaultCsvOptions =
      { startLine := 0
        endLine := ((parseCsv text getDefaultCsvOptions).rows.length : Int) - 1
        rows := (parseCsv text getDefaultCsvOptions).rows
        separatorIndex := 1
        alignments := List.replicate
          ((parseCsv text getDefaultCsvOptions).rows.headD []).length .none } := rfl

theorem parseCsv_ext (t1 t2 : Str)
    (h : (parseCsv t1 getDefaultCsvOptions).rows = (parseCsv t2 getDefaultCsvOptions).rows) :
    parseCsv t1 getDefaultCsvOptions = parseCsv t2 getDefaultCsvOptions := by
  rw [parseCsv_fields t1, parseCsv_fields t2, h]

theorem tableToCsv_default (t : MarkdownTable) :
    tableToCsv t getDefaultCsvOptions =
      joinSep ['\n'] ((filterWithIdx (fun i _ => decide ((i : Int) ≠ t.separatorIndex))
        t.rows 0).map
        (fun row => joinSep (strOf ",") (row.map (csvEmitCell getDefaultCsvOptions)))) := rfl

theorem tableToCsv_sep1 (t : MarkdownTable) (hsi : t.separatorIndex = 1)
    (r0 sep : List Str) (rest : List (List Str)) (hrows : t.rows = r0 :: sep :: rest) :
    tableToCsv t getDefaultCsvOptions =
      joinSep ['\n'] ((r0 :: rest).map
        (fun row => joinSep (strOf ",") (row.map (csvEmitCell getDefaultCsvOptions)))) := by
  rw [tableToCsv_default, hsi, hrows]
  have h0 : filterWithIdx (fun i _ => decide ((i : Int) ≠ 1)) (r0 :: sep :: rest) 0 =
      r0 :: filterWithIdx (fun i _ => decide ((i : Int) ≠ 1)) (sep :: rest) 1 := by
    show (if decide (((0 : Nat) : Int) ≠ 1) = true then _ else _) = _
    rw [if_pos (by decide)]
  have h1 : filterWithIdx (fun i _ => decide ((i : Int) ≠ 1)) (sep :: rest) 1 =
      filterWithIdx (fun i _ => decide ((i : Int) ≠ 1)) rest 2 := by
    show (if decide (((1 : Nat) : Int) ≠ 1) = true then _ else _) = _
    rw [if_neg (by decide)]
  rw [h0, h1, filterWithIdx_ne1_ge2 rest 2 (by omega)]

theorem emitLine_no_newline (row : List Str) (hnl : ∀ c ∈ row, '\n' ∉ c) :
    '\n' ∉ joinSep (strOf ",") (row.map (csvEmitCell getDefaultCsvOptions)) := by
  intro hm
  rcases mem_joinSep _ _ _ hm with ⟨p, hp, hcp⟩ | hsep
  · obtain ⟨cell, hcell, hpe⟩ := List.mem_map.mp hp
    rw [← hpe, csvEmitCell] at hcp
    by_cases hq : csvNeedsQuotes getDefaultCsvOptions cell
    · rw [if_pos hq] at hcp
      rcases List.mem_cons.mp hcp with h | h
      · exact absurd h (by decide)
      · rcases List.mem_append.mp h with h2 | h2
        · rw [csvEscape] at h2
          obtain ⟨c, hc, hmem⟩ := List.mem_flatMap.mp h2
          by_cases hcq : c = '"'
          · rw [if_pos hcq] at hmem
            exact absurd hmem (by decide)
          · rw [if_neg hcq] at hmem
            simp only [List.mem_singleton] at hmem
            exact hnl cell hcell (hmem ▸ hc)
        · exact absurd h2 (by decide)
    · rw [if_neg hq] at hcp
      exact hnl cell hcell hcp
  · exact absurd hsep (by decide)

theorem emitLine_last_not_cr (row : List Str) (htrim : ∀ c ∈ row, trimStr c = c) :
    (joinSep (strOf ",") (row.map (csvEmitCell getDefaultCsvOptions))).getLast? ≠
      some '\r' := by
  intro h
  rcases getLast_joinSep _ _ _ h with ⟨p, hp, hpc⟩ | hsep
  · obtain ⟨cell, hcell, hpe⟩ := List.mem_map.mp hp
    rw [← hpe, csvEmitCell] at hpc
    by_cases hq : csvNeedsQuotes getDefaultCsvOptions cell
    · rw [if_pos hq] at hpc
      have e2 : ('"' :: csvEscape cell ++ ['"']).getLast? = some '"' :=
        List.getLast?_concat _
      rw [e2] at hpc
      exact absurd (Option.some.inj hpc) (by decide)
    · rw [if_neg hq] at hpc
      have := trimStr_getLast cell '\r' (by rw [htrim cell hcell]; exact hpc)
      exact absurd this (by decide)
  · rw [show (strOf ",").getLast? = some ',' from rfl] at hsep
    exact absurd (Option.some.inj hsep) (by decide)

theorem emitLine_nonblank (row : List Str) (hne : row ≠ []) (hne1 : row ≠ [[]])
    (htrim : ∀ c ∈ row, trimStr c = c) :
    trimStr (joinSep (strOf ",") (row.map (csvEmitCell getDefaultCsvOptions))) ≠ [] := by
  cases row with
  | nil => exact absurd rfl hne
  | cons c cs =>
    cases cs with
    | nil =>
      have hcne : c ≠ [] := by
        intro hc
        exact hne1 (by rw [hc])
      show trimStr (csvEmitCell getDefaultCsvOptions c) ≠ []
      rw [csvEmitCell]
      by_cases hq : csvNeedsQuotes getDefaultCsvOptions c
      · rw [if_pos hq]
        exact trimStr_ne_nil _ '"' (List.mem_cons_self _ _) (by decide)
      · rw [if_neg hq]
        obtain ⟨ch, cr, hcc⟩ := List.exists_cons_of_ne_nil hcne
        have hh : (trimStr c).head? = some ch := by
          rw [htrim c (by simp), hcc]
          rfl
        have hws := trimStr_head c ch hh
        exact trimStr_ne_nil _ ch (by rw [hcc]; exact List.mem_cons_self _ _) hws
    | cons c2 cs2 =>
      have hmem : ',' ∈ joinSep (strOf ",")
          ((c :: c2 :: cs2).map (csvEmitCell getDefaultCsvOptions)) := by
        rw [show ((c :: c2 :: cs2).map (csvEmitCell getDefaultCsvOptions)) =
          csvEmitCell getDefaultCsvOptions c :: csvEmitCell getDefaultCsvOptions c2 ::
            (cs2.map (csvEmitCell getDefaultCsvOptions)) from rfl]
        exact sep_mem_joinSep _ _ _ _ ','
          (by rw [strOf_comma]; exact List.mem_cons_self _ _)
      exact trimStr_ne_nil _ ',' hmem (by decide)

theorem csvRows0_facts (text : Str) (row : List Str) (hrow : row ∈ csvRows0 text) :
    row ≠ [] ∧ (∀ c ∈ row, trimStr c = c) ∧ (∀ c ∈ row, '\n' ∉ c) := by
  rw [csvRows0] at hrow
  obtain ⟨l, hl, hre⟩ := List.mem_map.mp hrow
  have hlmem : l ∈ splitNL text := List.mem_of_mem_filter hl
  have hlnn : '\n' ∉ l := mem_splitNL_no_newline text l hlmem
  refine ⟨?_, ?_, ?_⟩
  · rw [← hre]
    intro hc
    have h2 := List.map_eq_nil_iff.mp hc
    rw [parseCsvLine] at h2
    exact parseCsvLineAux_ne_nil _ _ _ _ h2
  · intro c hc
    rw [← hre] at hc
    obtain ⟨raw, hraw, hce⟩ := List.mem_map.mp hc
    rw [← hce]
    exact trimStr_idem raw
  · intro c hc hnl
    rw [← hre] at hc
    obtain ⟨raw, hraw, hce⟩ := List.mem_map.mp hc
    rw [← hce] at hnl
    have h2 := mem_trimStr raw '\n' hnl
    rw [parseCsvLine] at hraw
    rcases parseCsvLineAux_chars (strOf ",") l [] false raw hraw '\n' h2 with h3 | h3
    · exact absurd h3 (List.not_mem_nil _)
    · exact hlnn h3

/-- C5 (amended): under default CSV options, if no row of the parsed table is
the single empty cell (such a row emits a blank CSV line, which re-parsing
discards), then `parseCsv (tableToCsv (parseCsv text))` is exactly
`parseCsv text`: cell values, header row and synthetic separator included. -/
theorem parseCsv_tableToCsv_roundtrip (text : Str)
    (h : ∀ row ∈ (parseCsv text getDefaultCsvOptions).rows, row ≠ [[]]) :
    parseCsv (tableToCsv (parseCsv text getDefaultCsvOptions) getDefaultCsvOptions)
        getDefaultCsvOptions = parseCsv text getDefaultCsvOptions := by
  apply parseCsv_ext
  by_cases h0 : csvRows0 text = []
  · have hr1 : (parseCsv text getDefaultCsvOptions).rows = [] := by
      rw [parseCsv_default_rows, if_neg (fun hcon => hcon.2 h0), h0]
    have htc : tableToCsv (parseCsv text getDefaultCsvOptions) getDefaultCsvOptions = [] := by
      rw [tableToCsv_default, hr1]
      rfl
    have hz : csvRows0 [] = [] := rfl
    rw [htc, hr1, parseCsv_default_rows, if_neg (fun hcon => hcon.2 hz), hz]
  · obtain ⟨r0, rest, hr0⟩ := List.exists_cons_of_ne_nil h0
    have hr1 : (parseCsv text getDefaultCsvOptions).rows =
        r0 :: List.replicate r0.length (strOf "---") :: rest := by
      rw [parseCsv_default_rows, if_pos ⟨rfl, h0⟩, hr0]
      rfl
    have hfacts : ∀ row ∈ r0 :: rest, row ≠ [] ∧ (∀ c ∈ row, trimStr c = c) ∧
        (∀ c ∈ row, '\n' ∉ c) := by
      intro row hrow
      apply csvRows0_facts text
      rw [hr0]
      rcases List.mem_cons.mp hrow with hh | hh
      · rw [hh]; exact List.mem_cons_self _ _
      · exact List.mem_cons_of_mem _ hh
    have hne1 : ∀ row ∈ r0 :: rest, row ≠ [[]] := by
      intro row hrow
      apply h
      rw [hr1]
      rcases List.mem_cons.mp hrow with hh | hh
      · rw [hh]; exact List.mem_cons_self _ _
      · exact List.mem_cons_of_mem _ (List.mem_cons_of_mem _ hh)
    have htc : tableToCsv (parseCsv text getDefaultCsvOptions) getDefaultCsvOptions =
        joinSep ['\n'] ((r0 :: rest).map
          (fun row => joinSep (strOf ",") (row.map (csvEmitCell getDefaultCsvOptions)))) :=
      tableToCsv_sep1 _ rfl r0 _ rest hr1
    have hsplit : splitNL (joinSep ['\n'] ((r0 :: rest).map
        (fun row => joinSep (strOf ",") (row.map (csvEmitCell getDefaultCsvOptions))))) =
        (r0 :: rest).map
          (fun row => joinSep (strOf ",") (row.map (csvEmitCell getDefaultCsvOptions))) := by
      apply splitNL_joinSep _ (by simp)
      intro p hp
      obtain ⟨row, hrow, hpe⟩ := List.mem_map.mp hp
      rw [← hpe]
      exact ⟨emitLine_no_newline row (hfacts row hrow).2.2,
        emitLine_last_not_cr row (hfacts row hrow).2.1⟩
    have hrows0 : csvRows0 (joinSep ['\n'] ((r0 :: rest).map
        (fun row => joinSep (strOf ",") (row.map (csvEmitCell getDefaultCsvOptions))))) =
        r0 :: rest := by
      rw [csvRows0, hsplit, List.filter_eq_self.mpr ?_, List.map_map]
      · have hcomp : ∀ row ∈ r0 :: rest,
            ((fun l => (parseCsvLine l (strOf ",")).map trimStr) ∘
              (fun row => joinSep (strOf ",")
                (row.map (csvEmitCell getDefaultCsvOptions)))) row = row := by
          intro row hrow
          exact parseCsvLine_emit row (hfacts row hrow).1 (hfacts row hrow).2.1
        rw [List.map_congr_left hcomp]
        simp
      · intro l hl
        obtain ⟨row, hrow, hpe⟩ := List.mem_map.mp hl
        rw [← hpe]
        rw [decide_eq_true_eq]
        exact emitLine_nonblank row (hfacts row hrow).1 (hne1 row hrow)
          (hfacts row hrow).2.1
    rw [hr1, htc, parseCsv_default_rows, if_pos ⟨rfl, by rw [hrows0]; simp⟩, hrows0]
    rfl

/-- C5: counterexample. For the text `a\n""\nb` under default CSV options the
middle line parses to the single empty cell; `tableToCsv` emits it as a blank
line, which re-parsing filters out, so the round trip loses that row. -/
theorem csv_roundtrip_counterexample :
    (parseCsv (tableToCsv (parseCsv (strOf "a\n\"\"\nb") getDefaultCsvOptions)
        getDefaultCsvOptions) getDefaultCsvOptions).rows ≠
      (parseCsv (strOf "a\n\"\"\nb") getDefaultCsvOptions).rows := by decide

theorem parseCsv_tableToCsv_roundtrip_witness :
    (∀ row ∈ (parseCsv (strOf "a,b\nc,d") getDefaultCsvOptions).rows, row ≠ [[]]) ∧
    parseCsv (tableToCsv (parseCsv (strOf "a,b\nc,d") getDefaultCsvOptions)
        getDefaultCsvOptions) getDefaultCsvOptions =
      parseCsv (strOf "a,b\nc,d") getDefaultCsvOptions :=
  ⟨by decide, parseCsv_tableToCsv_roundtrip (strOf "a,b\nc,d") (by decide)⟩

theorem compactTable_relocate_witness :
    isLocatorWF c4WitnessTable ∧
    (∃ t', findTables (compactTable c4WitnessTable getDefaultCompactOptions) false = [t'] ∧
      t'.startLine = 0 ∧ t'.endLine = (c4WitnessTable.rows.length : Int) - 1 ∧
      t'.separatorIndex = 1 ∧ t'.rows.length = c4WitnessTable.rows.length ∧
      (∀ i, i ≠ 1 → t'.rows.getD i [] = c4WitnessTable.rows.getD i []) ∧
      (t'.rows.getD 1 []).length = (c4WitnessTable.rows.getD 1 []).length ∧
      (∀ c ∈ t'.rows.getD 1 [], sepCellCore c = true)) :=
  ⟨by decide, compactTable_relocate c4WitnessTable getDefaultCompactOptions (by decide)⟩

end MdTableBuddy
